import Mathlib

/-!
# Chandy–Lamport simulation (`main.go`): shallow embedding and verified properties

The Go program keeps, for every node, a balance vector, a snapshot vector, a
recorded-state vector and an array of buffered channels.  Each node runs a
transfer loop (`performTransaction`) and a marker loop (`handleMarkerMessages`);
`main` builds the nodes, waits for the loops and prints a consistency report.

Modelling conventions.

* Go slices are `List`s.  An index expression that would panic in Go makes the
  embedded function return `none`.
* Node ids, channel indices and `transactionCount` are `Nat`: in the program they
  are loop counters, results of `rand.Intn`, or a counter that starts at `0` and is
  only incremented.  Balances and amounts are `Int`; the program's values stay
  within a few thousand, far from the 64-bit range.
* A buffered channel is the FIFO list of the messages it holds (oldest first).
  The buffer size (100) is not modelled; a receive on an empty channel blocks, which
  is modelled as a step that is not enabled.
* Locks, wait groups and the pacing sleep are omitted: every function below is the
  sequential body executed by one goroutine, and one body is one atomic step.
* The result of `generateTransaction` (two `rand.Intn` calls) is an input.
* Observable effects are returned as a list of `Event`s in program order.
-/

namespace ChandyLamport

/-! ## Data model -/

/-- Go `type Transaction struct { Amount int; Source int; Marker bool }`. -/
structure Transaction where
  Amount : Int
  Source : Nat
  Marker : Bool
deriving DecidableEq, Repr

/-- Go `type Node struct`, without the lock and the wait groups. -/
structure Node where
  ID : Nat
  Accounts : List Int
  MsgChannels : List (List Transaction)
  Snapshot : List Int
  State : List Int
  transactionCount : Nat
deriving DecidableEq, Repr

/-- Effects of the node code, in program order: the transfer line printed by
`performTransaction`, a call of `n.initiateSnapshot()`, and a channel send
`n.MsgChannels[ch] <- msg`. -/
inductive Event where
  | transferLog (src : Nat) (amount : Int) (dst : Nat)
  | snapshotCall (id : Nat)
  | send (ch : Nat) (msg : Transaction)
deriving DecidableEq, Repr

/-- Go `const TransactionsPerSnapshot = 15`. -/
def TransactionsPerSnapshot : Nat := 15

/-! ## Helpers for slices and channels -/

/-- Go `make([]int, k)`. -/
def makeInts (k : Nat) : List Int := List.replicate k 0

/-- Go builtin `copy(dst, src)`: overwrites the first `min (len dst) (len src)`
elements of `dst` and returns the resulting `dst`. -/
def goCopy (dst src : List Int) : List Int :=
  src.take dst.length ++ dst.drop src.length

/-- A send `chs[i] <- msg`: appends to channel `i`; the index expression panics when
`i` is out of range. -/
def chanSend (chs : List (List Transaction)) (i : Nat) (msg : Transaction) :
    Option (List (List Transaction)) :=
  match chs[i]? with
  | none => none
  | some q => some (chs.set i (q ++ [msg]))

/-- Go `calculateSum`: `total := 0; for _, num := range nums { total += num }`. -/
def calculateSum (nums : List Int) : Int :=
  nums.foldl (fun total num => total + num) 0

/-! ## Snapshot initiation -/

/-- The marker loop of `initiateSnapshot`, over the remaining values of `i`. -/
def sendMarkers (id : Nat) :
    List Nat → List (List Transaction) → Option (List (List Transaction) × List Event)
  | [], chs => some (chs, [])
  | i :: rest, chs =>
    if i ≠ id then
      match chanSend chs i { Amount := 0, Source := id, Marker := true } with
      | none => none
      | some chs1 =>
        match sendMarkers id rest chs1 with
        | none => none
        | some (chs2, ev) =>
          some (chs2, Event.send i { Amount := 0, Source := id, Marker := true } :: ev)
    else sendMarkers id rest chs

/-- Go `func (n *Node) initiateSnapshot()`. -/
def initiateSnapshot (numNodes : Nat) (n : Node) : Option (Node × List Event) :=
  let snap := goCopy (makeInts numNodes) n.Accounts
  match sendMarkers n.ID (List.range numNodes) n.MsgChannels with
  | none => none
  | some (chs, ev) => some ({ n with Snapshot := snap, MsgChannels := chs }, ev)

/-! ## Transfer loop -/

/-- One iteration of the `for` loop of `performTransaction`, for the generated pair
`(destinationID, amount)`; `total` is the global `totalAmount`. -/
def performIteration (numNodes : Nat) (n : Node) (total : Int) (destinationID : Nat)
    (amount : Int) : Option (Node × Int × List Event) :=
  if destinationID ≠ n.ID then
    match n.Accounts[destinationID]? with
    | none => none
    | some x =>
      let acc1 := n.Accounts.set destinationID (x + amount)
      match acc1[n.ID]? with
      | none => none
      | some y =>
        let acc2 := acc1.set n.ID (y - amount)
        let total1 := total + amount
        let n1 : Node := { n with Accounts := acc2, transactionCount := n.transactionCount + 1 }
        if n1.transactionCount % TransactionsPerSnapshot = 0 then
          match initiateSnapshot numNodes n1 with
          | none => none
          | some (n2, ev) =>
            some (n2, total1,
              Event.transferLog n.ID amount destinationID :: Event.snapshotCall n.ID :: ev)
        else some (n1, total1, [Event.transferLog n.ID amount destinationID])
  else some (n, total, [])

/-- The loop of `performTransaction` over the remaining values of `i`; `gen i` is the
pair returned by the call of `generateTransaction` in iteration `i`. -/
def performLoop (numNodes : Nat) (gen : Nat → Nat × Int) :
    List Nat → Node → Int → Option (Node × Int × List Event)
  | [], n, total => some (n, total, [])
  | i :: rest, n, total =>
    match performIteration numNodes n total (gen i).1 (gen i).2 with
    | none => none
    | some (n1, total1, ev1) =>
      match performLoop numNodes gen rest n1 total1 with
      | none => none
      | some (n2, total2, ev2) => some (n2, total2, ev1 ++ ev2)

/-- Go `func (n *Node) performTransaction()`:
`for i := 0; i < TransactionsPerSnapshot; i++ { ... }`. -/
def performTransaction (numNodes : Nat) (n : Node) (total : Int) (gen : Nat → Nat × Int) :
    Option (Node × Int × List Event) :=
  performLoop numNodes gen (List.range TransactionsPerSnapshot) n total

/-! ## Marker handling -/

/-- The loop of `handleSnapshotMessages`, over the remaining values of `i`. -/
def sendSnapshotRow (n : Node) :
    List Nat → List (List Transaction) → Option (List (List Transaction) × List Event)
  | [], chs => some (chs, [])
  | i :: rest, chs =>
    if i ≠ n.ID then
      match n.Snapshot[n.ID]? with
      | none => none
      | some v =>
        match chanSend chs i { Amount := v, Source := n.ID, Marker := false } with
        | none => none
        | some chs1 =>
          match sendSnapshotRow n rest chs1 with
          | none => none
          | some (chs2, ev) =>
            some (chs2, Event.send i { Amount := v, Source := n.ID, Marker := false } :: ev)
    else sendSnapshotRow n rest chs

/-- Go `func (n *Node) handleSnapshotMessages()`. -/
def handleSnapshotMessages (numNodes : Nat) (n : Node) : Option (Node × List Event) :=
  match sendSnapshotRow n (List.range numNodes) n.MsgChannels with
  | none => none
  | some (chs, ev) => some ({ n with MsgChannels := chs }, ev)

/-- The body of the receive loop of `handleMarkerMessages` for one received message
`msg`; `receivedMarkers` is the loop's local flag array. -/
def handleMessage (numNodes : Nat) (n : Node) (receivedMarkers : List Bool)
    (msg : Transaction) : Option (Node × List Bool × List Event) :=
  if msg.Marker then
    match receivedMarkers[msg.Source]? with
    | none => none
    | some flag =>
      if !flag then
        match n.Accounts[msg.Source]?, n.State[msg.Source]? with
        | some acc, some _ =>
          let n1 : Node := { n with State := n.State.set msg.Source acc }
          let flags1 := receivedMarkers.set msg.Source true
          match handleSnapshotMessages numNodes n1 with
          | none => none
          | some (n2, ev) => some (n2, flags1, ev)
        | _, _ => none
      else some (n, receivedMarkers, [])
  else some (n, receivedMarkers, [])

/-- The receive loop of `handleMarkerMessages` run over the messages `msgs` that the
channel delivers, in order, before it is closed. -/
def handleLoop (numNodes : Nat) :
    Node → List Bool → List Transaction → Option (Node × List Bool × List Event)
  | n, flags, [] => some (n, flags, [])
  | n, flags, msg :: rest =>
    match handleMessage numNodes n flags msg with
    | none => none
    | some (n1, flags1, ev1) =>
      match handleLoop numNodes n1 flags1 rest with
      | none => none
      | some (n2, flags2, ev2) => some (n2, flags2, ev1 ++ ev2)

/-- Go `func (n *Node) handleMarkerMessages()` for a channel that delivers `msgs` and
is then closed: `receivedMarkers := make([]bool, numNodes)` followed by the loop. -/
def handleMarkerMessages (numNodes : Nat) (n : Node) (msgs : List Transaction) :
    Option (Node × List Bool × List Event) :=
  handleLoop numNodes n (List.replicate numNodes false) msgs

/-! ## The verifier in `main` -/

/-- The inner loop of the consistency check,
`for j, snapshotAmount := range n.Snapshot { if snapshotAmount != n.State[j] {...; break} }`,
from index `j` on; the result is the final value of `isConsistent`. -/
def consistentFrom (state : List Int) : Nat → List Int → Option Bool
  | _, [] => some true
  | j, snapshotAmount :: rest =>
    match state[j]? with
    | none => none
    | some v => if snapshotAmount ≠ v then some false else consistentFrom state (j + 1) rest

/-- The value of `isConsistent` that `main` prints for node `n`. -/
def isConsistent (n : Node) : Option Bool :=
  consistentFrom n.State 0 n.Snapshot

/-- The test `snapshotTotal == totalAmount` of `main` for node `n`. -/
def totalMatches (n : Node) (totalAmount : Int) : Bool :=
  decide (calculateSum n.Snapshot = totalAmount)

/-! ## The whole system -/

/-- The globals of the program: `numNodes`, `nodes`, `totalAmount`, together with the
local flag array `receivedMarkers` of each node's `handleMarkerMessages` goroutine. -/
structure System where
  numNodes : Nat
  nodes : List Node
  receivedMarkers : List (List Bool)
  totalAmount : Int
deriving DecidableEq, Repr

/-- The node literal that `main` stores in `nodes[i]`, after the two inner loops:
every channel is empty and `Accounts[j]` holds the random value `init i j`. -/
def initNode (numNodes i : Nat) (init : Nat → Nat → Int) : Node :=
  { ID := i
    Accounts := (List.range numNodes).map (init i)
    MsgChannels := List.replicate numNodes []
    Snapshot := makeInts numNodes
    State := makeInts numNodes
    transactionCount := 0 }

/-- The state after the set-up loop of `main`: `totalAmount` has accumulated
`calculateSum(nodes[i].Accounts)` for `i = 0, 1, ...`, and every marker goroutine has
allocated its flag array. -/
def initSystem (numNodes : Nat) (init : Nat → Nat → Int) : System :=
  { numNodes := numNodes
    nodes := (List.range numNodes).map (fun i => initNode numNodes i init)
    receivedMarkers := List.replicate numNodes (List.replicate numNodes false)
    totalAmount := (List.range numNodes).foldl
      (fun total i => total + calculateSum (initNode numNodes i init).Accounts) 0 }

/-- Atomic steps of the running system: one iteration of node `i`'s transfer loop with
the generated pair `(d, a)`; a call of `nodes[i].initiateSnapshot()`; one receive of
node `i`'s marker loop followed by the loop body. -/
inductive Action where
  | iter (i d : Nat) (a : Int)
  | snap (i : Nat)
  | recv (i : Nat)
deriving DecidableEq, Repr

/-- One step of the system; `none` when the step panics or, for `recv`, when the
channel `n.MsgChannels[n.ID]` is empty (the receive blocks). -/
def exec (s : System) : Action → Option System
  | Action.iter i d a =>
    match s.nodes[i]? with
    | none => none
    | some n =>
      match performIteration s.numNodes n s.totalAmount d a with
      | none => none
      | some (n1, total1, _) => some { s with nodes := s.nodes.set i n1, totalAmount := total1 }
  | Action.snap i =>
    match s.nodes[i]? with
    | none => none
    | some n =>
      match initiateSnapshot s.numNodes n with
      | none => none
      | some (n1, _) => some { s with nodes := s.nodes.set i n1 }
  | Action.recv i =>
    match s.nodes[i]?, s.receivedMarkers[i]? with
    | some n, some flags =>
      match n.MsgChannels[n.ID]? with
      | some (msg :: q) =>
        match handleMessage s.numNodes { n with MsgChannels := n.MsgChannels.set n.ID q }
            flags msg with
        | none => none
        | some (n1, flags1, _) =>
          some { s with nodes := s.nodes.set i n1,
                        receivedMarkers := s.receivedMarkers.set i flags1 }
      | _ => none
    | _, _ => none

/-- A sequence of steps, executed in order. -/
def execAll : System → List Action → Option System
  | s, [] => some s
  | s, act :: rest =>
    match exec s act with
    | none => none
    | some s1 => execAll s1 rest

/-- Node `i`'s marker loop run to the end on a closed channel: it reads every message
that `n.MsgChannels[n.ID]` holds and then leaves the loop. -/
def drainNode (s : System) (i : Nat) : Option System :=
  match s.nodes[i]?, s.receivedMarkers[i]? with
  | some n, some flags =>
    match n.MsgChannels[n.ID]? with
    | none => none
    | some q =>
      match handleLoop s.numNodes { n with MsgChannels := n.MsgChannels.set n.ID [] } flags q with
      | none => none
      | some (n1, flags1, _) =>
        some { s with nodes := s.nodes.set i n1,
                      receivedMarkers := s.receivedMarkers.set i flags1 }
  | _, _ => none

/-- The marker loops of the listed nodes run to the end, one after the other. -/
def drainAll : List Nat → System → Option System
  | [], s => some s
  | i :: rest, s =>
    match drainNode s i with
    | none => none
    | some s1 => drainAll rest s1

/-- Node `i`'s whole transfer loop; `gens i k` is the pair generated in its iteration `k`. -/
def runNode (gens : Nat → Nat → Nat × Int) (s : System) (i : Nat) : Option System :=
  match s.nodes[i]? with
  | none => none
  | some n =>
    match performTransaction s.numNodes n s.totalAmount (gens i) with
    | none => none
    | some (n1, total1, _) => some { s with nodes := s.nodes.set i n1, totalAmount := total1 }

/-- The transfer loops of the listed nodes, one after the other. -/
def runNodes (gens : Nat → Nat → Nat × Int) : List Nat → System → Option System
  | [], s => some s
  | i :: rest, s =>
    match runNode gens s i with
    | none => none
    | some s1 => runNodes gens rest s1

/-- What `main` prints for one node: the snapshot, `isConsistent`, `snapshotTotal`
and whether `snapshotTotal == totalAmount`. -/
structure Report where
  snapshot : List Int
  consistent : Bool
  snapshotTotal : Int
  totalsMatch : Bool
deriving DecidableEq, Repr

/-- The body of the report loop of `main` for node `n`. -/
def verifyNode (totalAmount : Int) (n : Node) : Option Report :=
  match isConsistent n with
  | none => none
  | some c =>
    some { snapshot := n.Snapshot, consistent := c, snapshotTotal := calculateSum n.Snapshot,
           totalsMatch := totalMatches n totalAmount }

/-- The report loop of `main`, `for i, n := range nodes`. -/
def verifyAll (totalAmount : Int) : List Node → Option (List Report)
  | [] => some []
  | n :: rest =>
    match verifyNode totalAmount n with
    | none => none
    | some r =>
      match verifyAll totalAmount rest with
      | none => none
      | some rs => some (r :: rs)

/-- The program `main` under the schedule in which the nodes run their transfer loops
one after the other: set-up, transfer loops, closing of the channels with the marker
loops running to the end, report.  Each goroutine touches only its own node and adds to
`totalAmount`, so the final state does not depend on the schedule of the transfer loops;
for one node there is no other schedule. -/
def mainRun (numNodes : Nat) (init : Nat → Nat → Int) (gens : Nat → Nat → Nat × Int) :
    Option (System × List Report) :=
  match runNodes gens (List.range numNodes) (initSystem numNodes init) with
  | none => none
  | some s1 =>
    match drainAll (List.range numNodes) s1 with
    | none => none
    | some s2 =>
      match verifyAll s2.totalAmount s2.nodes with
      | none => none
      | some reports => some (s2, reports)

/-! ## Well-formedness and auxiliary definitions -/

/-- The shape `main` gives every node: an id below `numNodes` and four vectors of
length `numNodes`. -/
def NodeWF (numNodes : Nat) (n : Node) : Prop :=
  n.ID < numNodes ∧ n.Accounts.length = numNodes ∧ n.MsgChannels.length = numNodes ∧
    n.Snapshot.length = numNodes ∧ n.State.length = numNodes

instance (numNodes : Nat) (n : Node) : Decidable (NodeWF numNodes n) := by
  unfold NodeWF; infer_instance

/-- The shape `main` gives the system: `nodes[i].ID = i` for `i = 0 .. numNodes-1`, and
every node is well formed. -/
def SysWF (s : System) : Prop :=
  s.nodes.map (fun n => n.ID) = List.range s.numNodes ∧ ∀ n ∈ s.nodes, NodeWF s.numNodes n

instance (s : System) : Decidable (SysWF s) := by
  unfold SysWF; infer_instance

/-- The sum of the own-balance entries `n.Accounts[i]` of the listed nodes, the first of
which has index `i`. -/
def ownBalanceFrom : Nat → List Node → Int
  | _, [] => 0
  | i, n :: rest => n.Accounts.getD i 0 + ownBalanceFrom (i + 1) rest

/-- The sum over all nodes `i` of the own-balance entry `nodes[i].Accounts[i]`. -/
def ownBalanceSum (nodes : List Node) : Int :=
  ownBalanceFrom 0 nodes

/-- The marker message that `initiateSnapshot` of node `id` sends. -/
def markerOf (id : Nat) : Transaction := { Amount := 0, Source := id, Marker := true }

/-- The common shape of the two send loops: for every `i` of the list other than `id`,
a send of `msg` on channel `i`. -/
def sendEach (id : Nat) (msg : Transaction) :
    List Nat → List (List Transaction) → Option (List (List Transaction) × List Event)
  | [], chs => some (chs, [])
  | i :: rest, chs =>
    if i ≠ id then
      match chanSend chs i msg with
      | none => none
      | some chs1 =>
        match sendEach id msg rest chs1 with
        | none => none
        | some (chs2, ev) => some (chs2, Event.send i msg :: ev)
    else sendEach id msg rest chs

/-- The send events of `initiateSnapshot` of node `id` among `numNodes` nodes. -/
def markerEvents (numNodes id : Nat) : List Event :=
  ((List.range numNodes).filter (fun i => decide (i ≠ id))).map
    (fun i => Event.send i (markerOf id))

/-- The node after the two balance updates and the counter increment of a successful
transfer of `a` to `d`. -/
def transferred (n : Node) (d : Nat) (a : Int) : Node :=
  { n with
    Accounts := (n.Accounts.set d (n.Accounts.getD d 0 + a)).set n.ID (n.Accounts.getD n.ID 0 - a)
    transactionCount := n.transactionCount + 1 }

/-! ## Sample data -/

/-- A node of a three-node system: id 1, about to reach the snapshot threshold. -/
def sampleNode : Node :=
  { ID := 1
    Accounts := [900, 1000, 1100]
    MsgChannels := [[], [], []]
    Snapshot := [0, 0, 0]
    State := [0, 0, 0]
    transactionCount := 14 }

/-! ## Observations on event traces -/

/-- Whether an event is a call of `initiateSnapshot`. -/
def Event.isSnapshotCall : Event → Bool
  | Event.snapshotCall _ => true
  | _ => false

/-- The number of calls of `initiateSnapshot` in a trace. -/
def snapshotCalls (ev : List Event) : Nat :=
  ev.countP Event.isSnapshotCall

/-- The number of iterations among `is` whose generated destination differs from `id`. -/
def successes (gen : Nat → Nat × Int) (id : Nat) (is : List Nat) : Nat :=
  is.countP (fun i => decide ((gen i).1 ≠ id))

/-! ## Invariants of the running system -/

/-- The invariant of all states reachable from `initSystem numNodes init`: the shape is
kept, every node's own channel is empty, no state has been recorded and no flag set, every
node's balance vector keeps its sum, and the own-balance entries have lost exactly what
`totalAmount` has gained. -/
structure Invariant (numNodes : Nat) (init : Nat → Nat → Int) (s : System) : Prop where
  wf : SysWF s
  num : s.numNodes = numNodes
  inbox : ∀ n ∈ s.nodes, n.MsgChannels[n.ID]? = some []
  state : ∀ n ∈ s.nodes, n.State = makeInts numNodes
  flags : s.receivedMarkers = List.replicate numNodes (List.replicate numNodes false)
  sums : ∀ i n, s.nodes[i]? = some n →
    n.Accounts.sum = ((initNode numNodes i init).Accounts).sum
  own : ownBalanceSum s.nodes + (s.totalAmount - (initSystem numNodes init).totalAmount)
    = ownBalanceSum (initSystem numNodes init).nodes

/-- The further invariant of runs in which snapshots are initiated only by the transfer
loop and amounts are non-negative: a snapshot sums to `0` or, with at least two nodes, to
the node's initial balance sum, and `totalAmount` has not decreased. -/
structure RunInvariant (numNodes : Nat) (init : Nat → Nat → Int) (s : System) : Prop where
  snap : ∀ i n, s.nodes[i]? = some n →
    n.Snapshot.sum = 0 ∨
      (2 ≤ numNodes ∧ n.Snapshot.sum = ((initNode numNodes i init).Accounts).sum)
  total : (initSystem numNodes init).totalAmount ≤ s.totalAmount

/-- The steps of a run of `main`: transfer-loop iterations with an amount in `[0, 99]` and
receives of the marker loops. -/
def Action.isRunStep : Action → Prop
  | Action.iter _ _ a => 0 ≤ a ∧ a ≤ 99
  | Action.snap _ => False
  | Action.recv _ => True

instance (act : Action) : Decidable act.isRunStep := by
  cases act <;> unfold Action.isRunStep <;> infer_instance

/-- The invariant of runs of `main` on the entries: in every node `i`, each balance entry
of another node is at least 900, and the snapshot is still the zero vector or (with at
least two nodes) has every entry of another node at least 900. -/
structure EntryInvariant (numNodes : Nat) (s : System) : Prop where
  acc : ∀ (i : Nat) (n : Node), s.nodes[i]? = some n →
    ∀ (j : Nat) (x : Int), j ≠ i → n.Accounts[j]? = some x → 900 ≤ x
  snap : ∀ (i : Nat) (n : Node), s.nodes[i]? = some n →
    n.Snapshot = makeInts numNodes ∨
      (2 ≤ numNodes ∧ ∀ (j : Nat) (x : Int), j ≠ i → n.Snapshot[j]? = some x → 900 ≤ x)

/-! ## Basic lemmas -/

theorem calculateSum_eq_sum (l : List Int) : calculateSum l = l.sum := by
  unfold calculateSum
  have h : ∀ (xs : List Int) (t : Int), xs.foldl (fun total num => total + num) t = t + xs.sum := by
    intro xs
    induction xs with
    | nil => intro t; simp
    | cons x xs ih => intro t; simp [ih]; ring
  simpa using h l 0

theorem sum_set_int (l : List Int) (i : Nat) (x v : Int) (h : l[i]? = some x) :
    (l.set i v).sum = l.sum - x + v := by
  induction l generalizing i with
  | nil => simp at h
  | cons y ys ih =>
    cases i with
    | zero =>
      simp at h
      subst h
      simp
      ring
    | succ k =>
      simp at h
      simp [ih k h]
      ring

theorem goCopy_make (k : Nat) (src : List Int) (h : src.length = k) :
    goCopy (makeInts k) src = src := by
  unfold goCopy makeInts
  simp [h]

theorem chanSend_some (chs : List (List Transaction)) (i : Nat) (msg : Transaction)
    (h : i < chs.length) : chanSend chs i msg = some (chs.set i (chs[i] ++ [msg])) := by
  unfold chanSend
  simp [List.getElem?_eq_getElem h]

theorem sendMarkers_eq_sendEach (id : Nat) (is : List Nat) (chs : List (List Transaction)) :
    sendMarkers id is chs = sendEach id (markerOf id) is chs := by
  induction is generalizing chs with
  | nil => rfl
  | cons i rest ih =>
    unfold sendMarkers sendEach
    by_cases h : i = id
    · simp [h, ih]
    · simp only [ne_eq, h, not_false_eq_true, if_true, markerOf]
      cases hc : chanSend chs i { Amount := 0, Source := id, Marker := true } with
      | none => rfl
      | some chs1 => simp only [ih chs1, markerOf]

theorem sendSnapshotRow_eq_sendEach (n : Node) (v : Int) (hv : n.Snapshot[n.ID]? = some v)
    (is : List Nat) (chs : List (List Transaction)) :
    sendSnapshotRow n is chs
      = sendEach n.ID { Amount := v, Source := n.ID, Marker := false } is chs := by
  induction is generalizing chs with
  | nil => rfl
  | cons i rest ih =>
    unfold sendSnapshotRow sendEach
    by_cases h : i = n.ID
    · simp [h, ih]
    · simp only [ne_eq, h, not_false_eq_true, if_true, hv]
      cases hc : chanSend chs i { Amount := v, Source := n.ID, Marker := false } with
      | none => rfl
      | some chs1 => simp only [ih chs1]

theorem sendSnapshotRow_all_self (n : Node) (is : List Nat) (chs : List (List Transaction))
    (h : ∀ i ∈ is, i = n.ID) : sendSnapshotRow n is chs = some (chs, []) := by
  induction is with
  | nil => rfl
  | cons i rest ih =>
    unfold sendSnapshotRow
    have hi : i = n.ID := h i (by simp)
    simp only [hi, ne_eq, not_true_eq_false, if_false]
    exact ih (fun j hj => h j (by simp [hj]))

theorem sendEach_spec (id : Nat) (msg : Transaction) (is : List Nat)
    (chs : List (List Transaction)) (hlt : ∀ i ∈ is, i < chs.length) (hnd : is.Nodup) :
    ∃ chs1, sendEach id msg is chs
        = some (chs1, (is.filter (fun i => decide (i ≠ id))).map (fun i => Event.send i msg)) ∧
      chs1.length = chs.length ∧
      ∀ j, chs1[j]? = if j ∈ is ∧ j ≠ id then (chs[j]?).map (fun q => q ++ [msg]) else chs[j]? := by
  induction is generalizing chs with
  | nil => exact ⟨chs, by simp [sendEach]⟩
  | cons i rest ih =>
    have hnd1 : rest.Nodup := (List.nodup_cons.mp hnd).2
    have hni : i ∉ rest := (List.nodup_cons.mp hnd).1
    have hi : i < chs.length := hlt i (by simp)
    by_cases h : i = id
    · obtain ⟨chs1, h1, h2, h3⟩ := ih chs (fun j hj => hlt j (by simp [hj])) hnd1
      refine ⟨chs1, ?_, h2, ?_⟩
      · unfold sendEach
        simp [h, h1]
      · intro j
        rw [h3 j]
        by_cases hj : j = id
        · simp [hj]
        · have : j ≠ i := by rw [h]; exact hj
          simp [hj, this]
    · obtain ⟨chs1, h1, h2, h3⟩ := ih (chs.set i (chs[i] ++ [msg]))
        (fun j hj => by simpa using hlt j (by simp [hj])) hnd1
      refine ⟨chs1, ?_, by simpa using h2, ?_⟩
      · unfold sendEach
        simp [h, chanSend_some chs i msg hi, h1]
      · intro j
        rw [h3 j]
        by_cases hji : j = i
        · subst hji
          simp [hni, h, List.getElem?_eq_getElem hi, List.getElem?_set_eq_of_lt _ hi]
        · have hij : i ≠ j := fun e => hji e.symm
          simp [hji, List.getElem?_set_ne hij]

theorem length_filter_ne_range (k id : Nat) (h : id < k) :
    ((List.range k).filter (fun i => decide (i ≠ id))).length = k - 1 := by
  have hnd : (List.range k).Nodup := List.nodup_range k
  have hmem : id ∈ List.range k := List.mem_range.mpr h
  have he : (List.range k).erase id = (List.range k).filter (fun i => decide (i ≠ id)) := by
    rw [List.Nodup.erase_eq_filter hnd]
    congr 1
    funext i
    by_cases hi : i = id <;> simp [hi, bne]
  rw [← he, List.length_erase_of_mem hmem]
  simp

theorem initiateSnapshot_some (numNodes : Nat) (n : Node)
    (hch : n.MsgChannels.length = numNodes) :
    ∃ chs, initiateSnapshot numNodes n
        = some ({ n with Snapshot := goCopy (makeInts numNodes) n.Accounts, MsgChannels := chs },
            markerEvents numNodes n.ID) ∧
      chs.length = numNodes ∧
      ∀ j, chs[j]? = if j < numNodes ∧ j ≠ n.ID
        then (n.MsgChannels[j]?).map (fun q => q ++ [markerOf n.ID]) else n.MsgChannels[j]? := by
  obtain ⟨chs, h1, h2, h3⟩ := sendEach_spec n.ID (markerOf n.ID) (List.range numNodes)
    n.MsgChannels (fun i hi => by rw [hch]; exact List.mem_range.mp hi) (List.nodup_range _)
  refine ⟨chs, ?_, by rw [h2, hch], ?_⟩
  · unfold initiateSnapshot
    simp only [sendMarkers_eq_sendEach, h1, markerEvents]
  · intro j
    rw [h3 j]
    simp only [List.mem_range]

theorem performIteration_self (numNodes : Nat) (n : Node) (t a : Int) :
    performIteration numNodes n t n.ID a = some (n, t, []) := by
  simp [performIteration]

theorem performIteration_ne (numNodes : Nat) (n : Node) (t : Int) (d : Nat) (a : Int)
    (hacc : n.Accounts.length = numNodes) (hid : n.ID < numNodes) (hd : d < numNodes)
    (hne : d ≠ n.ID) :
    performIteration numNodes n t d a =
      if (n.transactionCount + 1) % TransactionsPerSnapshot = 0 then
        match initiateSnapshot numNodes (transferred n d a) with
        | none => none
        | some (n2, ev) =>
          some (n2, t + a, Event.transferLog n.ID a d :: Event.snapshotCall n.ID :: ev)
      else some (transferred n d a, t + a, [Event.transferLog n.ID a d]) := by
  have hd1 : d < n.Accounts.length := by omega
  have hid1 : n.ID < n.Accounts.length := by omega
  have hne1 : ¬ n.ID = d := fun e => hne e.symm
  unfold performIteration transferred
  simp [hne, hne1, List.getElem?_eq_getElem hd1, List.getElem?_eq_getElem hid1,
    List.getElem_set_ne hne, List.getD_eq_getElem?_getD]

theorem transferred_sum (n : Node) (d : Nat) (a : Int) (hd : d < n.Accounts.length)
    (hid : n.ID < n.Accounts.length) (hne : d ≠ n.ID) :
    (transferred n d a).Accounts.sum = n.Accounts.sum := by
  unfold transferred
  simp only
  have h1 : (n.Accounts.set d (n.Accounts.getD d 0 + a))[n.ID]? = some (n.Accounts.getD n.ID 0) := by
    rw [List.getElem?_set_ne hne]
    simp [List.getD_eq_getElem?_getD, List.getElem?_eq_getElem hid]
  have h2 : n.Accounts[d]? = some (n.Accounts.getD d 0) := by
    simp [List.getD_eq_getElem?_getD, List.getElem?_eq_getElem hd]
  rw [sum_set_int _ _ _ _ h1, sum_set_int _ _ _ _ h2]
  ring

theorem transferred_wf (numNodes : Nat) (n : Node) (d : Nat) (a : Int)
    (h : NodeWF numNodes n) : NodeWF numNodes (transferred n d a) := by
  unfold NodeWF transferred at *
  simpa using h

/-! ## Snapshot initiation (C6) -/

/-- C6: for a well-formed node `n` among `numNodes` nodes, `initiateSnapshot` returns;
afterwards `Snapshot` is a vector of length `numNodes` equal to `Accounts`, `Accounts` and
`State` are unchanged, and the messages sent are exactly one per `i ≠ n.ID`, in increasing
order of `i`, each with `Marker = true` and `Source = n.ID` (so `numNodes - 1` messages, none
on channel `n.ID`); channel `i ≠ n.ID` gains that message at its end and channel `n.ID` is
untouched. -/
theorem initiateSnapshot_spec (numNodes : Nat) (n : Node) (hwf : NodeWF numNodes n) :
    ∃ n1 ev, initiateSnapshot numNodes n = some (n1, ev) ∧
      n1.Snapshot.length = numNodes ∧ n1.Snapshot = n.Accounts ∧
      n1.Accounts = n.Accounts ∧ n1.State = n.State ∧
      ev = ((List.range numNodes).filter (fun i => decide (i ≠ n.ID))).map
        (fun i => Event.send i { Amount := 0, Source := n.ID, Marker := true }) ∧
      ev.length = numNodes - 1 ∧
      (∀ msg, Event.send n.ID msg ∉ ev) ∧
      n1.MsgChannels[n.ID]? = n.MsgChannels[n.ID]? ∧
      ∀ j, j < numNodes → j ≠ n.ID →
        n1.MsgChannels[j]? = (n.MsgChannels[j]?).map
          (fun q => q ++ [{ Amount := 0, Source := n.ID, Marker := true }]) := by
  obtain ⟨hid, hacc, hch, _, _⟩ := hwf
  obtain ⟨chs, h1, h2, h3⟩ := initiateSnapshot_some numNodes n hch
  refine ⟨_, _, h1, ?_, ?_, rfl, rfl, rfl, ?_, ?_, ?_, ?_⟩
  · simp [goCopy_make numNodes n.Accounts hacc, hacc]
  · simp [goCopy_make numNodes n.Accounts hacc]
  · simp only [markerEvents, List.length_map]
    exact length_filter_ne_range numNodes n.ID hid
  · intro msg hmem
    simp [markerEvents] at hmem
    obtain ⟨a, ⟨_, h⟩, h', _⟩ := hmem
    exact h h'
  · simp [h3 n.ID]
  · intro j hj hne
    simp [h3 j, hj, hne, markerOf]

/-- Witness for C6: node 1 of three nodes. -/
theorem initiateSnapshot_spec_witness :
    NodeWF 3 sampleNode ∧
    ∃ n1 ev, initiateSnapshot 3 sampleNode = some (n1, ev) ∧ ev.length = 2 :=
  ⟨by decide,
   by
    obtain ⟨n1, ev, h1, _, _, _, _, _, h7, _⟩ := initiateSnapshot_spec 3 sampleNode (by decide)
    exact ⟨n1, ev, h1, h7⟩⟩

/-! ## Lemmas on well-formed systems -/

theorem set_of_getElem? {α : Type} (l : List α) (i : Nat) (x : α) (h : l[i]? = some x) :
    l.set i x = l := by
  induction l generalizing i with
  | nil => rfl
  | cons y ys ih =>
    cases i with
    | zero => simp at h; simp [h]
    | succ k => simp at h; simp [ih k h]

theorem sysWF_length (s : System) (h : SysWF s) : s.nodes.length = s.numNodes := by
  have := congrArg List.length h.1
  simpa using this

theorem sysWF_of_get (s : System) (h : SysWF s) (i : Nat) (n : Node)
    (hn : s.nodes[i]? = some n) : n.ID = i ∧ NodeWF s.numNodes n := by
  obtain ⟨hlt, hget⟩ := List.getElem?_eq_some.mp hn
  refine ⟨?_, h.2 n (hget ▸ List.getElem_mem hlt)⟩
  have h1 : (s.nodes.map (fun n => n.ID))[i]? = (List.range s.numNodes)[i]? := by rw [h.1]
  rw [List.getElem?_map, hn] at h1
  have hi : i < s.numNodes := by rw [← sysWF_length s h]; exact hlt
  rw [List.getElem?_range hi] at h1
  simpa using h1

theorem sysWF_get (s : System) (h : SysWF s) (i : Nat) (hi : i < s.numNodes) :
    ∃ n, s.nodes[i]? = some n ∧ n.ID = i ∧ NodeWF s.numNodes n := by
  have hlt : i < s.nodes.length := by rw [sysWF_length s h]; exact hi
  refine ⟨s.nodes[i], List.getElem?_eq_getElem hlt, ?_⟩
  exact sysWF_of_get s h i _ (List.getElem?_eq_getElem hlt)

theorem sysWF_set (s : System) (h : SysWF s) (i : Nat) (n1 : Node) (t : Int)
    (fl : List (List Bool)) (hid : n1.ID = i) (hwf : NodeWF s.numNodes n1) :
    SysWF { s with nodes := s.nodes.set i n1, totalAmount := t, receivedMarkers := fl } := by
  have hi : i < s.numNodes := hid ▸ hwf.1
  obtain ⟨n, hn, hnid, _⟩ := sysWF_get s h i hi
  constructor
  · show (s.nodes.set i n1).map (fun n => n.ID) = List.range s.numNodes
    rw [List.map_set, hid, ← hnid]
    have : (s.nodes.map (fun n => n.ID))[i]? = some n.ID := by simp [hn]
    rw [hnid] at this ⊢
    rw [set_of_getElem? _ _ _ this, h.1]
  · intro m hm
    show NodeWF s.numNodes m
    rcases List.mem_or_eq_of_mem_set hm with hm1 | hm1
    · exact h.2 m hm1
    · rw [hm1]; exact hwf

/-- What one transfer iteration with `d ≠ n.ID` does to a well-formed node. -/
theorem performIteration_props (numNodes : Nat) (n : Node) (t : Int) (d : Nat) (a : Int)
    (hwf : NodeWF numNodes n) (hd : d < numNodes) (hne : d ≠ n.ID) :
    ∃ n1 ev, performIteration numNodes n t d a = some (n1, t + a, ev) ∧
      n1.ID = n.ID ∧ n1.Accounts = (transferred n d a).Accounts ∧ n1.State = n.State ∧
      n1.transactionCount = n.transactionCount + 1 ∧ NodeWF numNodes n1 ∧
      n1.MsgChannels[n.ID]? = n.MsgChannels[n.ID]? ∧
      (((n.transactionCount + 1) % TransactionsPerSnapshot ≠ 0 ∧ n1 = transferred n d a ∧
          ev = [Event.transferLog n.ID a d]) ∨
        ((n.transactionCount + 1) % TransactionsPerSnapshot = 0 ∧ n1.Snapshot = n1.Accounts ∧
          ev = Event.transferLog n.ID a d :: Event.snapshotCall n.ID ::
            markerEvents numNodes n.ID)) := by
  have hwf1 := transferred_wf numNodes n d a hwf
  obtain ⟨hid, hacc, hch, hsn, hst⟩ := hwf
  rw [performIteration_ne numNodes n t d a hacc hid hd hne]
  by_cases hk : (n.transactionCount + 1) % TransactionsPerSnapshot = 0
  · obtain ⟨chs, h1, h2, h3⟩ := initiateSnapshot_some numNodes (transferred n d a) hwf1.2.2.1
    rw [if_pos hk, h1]
    refine ⟨_, _, rfl, rfl, rfl, rfl, rfl, ?_, ?_, Or.inr ⟨hk, ?_, rfl⟩⟩
    · exact ⟨hid, hwf1.2.1, h2, by simp [goCopy_make numNodes _ hwf1.2.1, hwf1.2.1], hst⟩
    · have := h3 n.ID
      simpa [transferred] using this
    · simp [goCopy_make numNodes _ hwf1.2.1]
  · rw [if_neg hk]
    exact ⟨_, _, rfl, rfl, rfl, rfl, rfl, hwf1, rfl, Or.inl ⟨hk, rfl, rfl⟩⟩


/-! ## The transfer step (C7) -/

theorem transferred_get_dest (n : Node) (d : Nat) (a x : Int) (hne : d ≠ n.ID)
    (hx : n.Accounts[d]? = some x) : (transferred n d a).Accounts[d]? = some (x + a) := by
  have hd : d < n.Accounts.length := (List.getElem?_eq_some.mp hx).1
  have hne1 : n.ID ≠ d := fun e => hne e.symm
  unfold transferred
  simp only
  rw [List.getElem?_set_ne hne1, List.getElem?_set_self hd]
  simp [hx]

theorem transferred_get_self (n : Node) (d : Nat) (a y : Int)
    (hy : n.Accounts[n.ID]? = some y) : (transferred n d a).Accounts[n.ID]? = some (y - a) := by
  have hid : n.ID < n.Accounts.length := (List.getElem?_eq_some.mp hy).1
  unfold transferred
  simp only
  rw [List.getElem?_set_self (by simpa using hid)]
  simp [hy]

theorem transferred_get_other (n : Node) (d : Nat) (a : Int) (j : Nat) (h1 : j ≠ d)
    (h2 : j ≠ n.ID) : (transferred n d a).Accounts[j]? = n.Accounts[j]? := by
  unfold transferred
  simp only
  rw [List.getElem?_set_ne (fun e => h2 e.symm), List.getElem?_set_ne (fun e => h1 e.symm)]

/-- C7: in a well-formed system, one iteration of node `i`'s transfer loop with an
in-range destination `d` and amount `a` returns.  With `d = i` it leaves the whole system
unchanged.  With `d ≠ i` it sets `Accounts[d]` to `Accounts[d] + a` and `Accounts[i]` to
`Accounts[i] - a`, leaves every other entry of the node's `Accounts` and every other node
unchanged, adds `a` to `totalAmount`, increments `transactionCount` by one, and leaves
`calculateSum` of the node's `Accounts` unchanged. -/
theorem transfer_step_spec (s : System) (i d : Nat) (a : Int) (hwf : SysWF s)
    (hi : i < s.numNodes) (hd : d < s.numNodes) :
    (d = i → exec s (Action.iter i d a) = some s) ∧
    (d ≠ i → ∃ s1 n n1 x y, exec s (Action.iter i d a) = some s1 ∧
      s.nodes[i]? = some n ∧ s1.nodes[i]? = some n1 ∧
      n.Accounts[d]? = some x ∧ n.Accounts[i]? = some y ∧
      n1.Accounts[d]? = some (x + a) ∧ n1.Accounts[i]? = some (y - a) ∧
      (∀ j, j ≠ d → j ≠ i → n1.Accounts[j]? = n.Accounts[j]?) ∧
      n1.State = n.State ∧
      (∀ k, k ≠ i → s1.nodes[k]? = s.nodes[k]?) ∧
      s1.nodes.length = s.nodes.length ∧ s1.numNodes = s.numNodes ∧
      s1.receivedMarkers = s.receivedMarkers ∧
      s1.totalAmount = s.totalAmount + a ∧
      n1.transactionCount = n.transactionCount + 1 ∧
      calculateSum n1.Accounts = calculateSum n.Accounts) := by
  obtain ⟨n, hn, hnid, hnwf⟩ := sysWF_get s hwf i hi
  have hlt : i < s.nodes.length := (List.getElem?_eq_some.mp hn).1
  constructor
  · intro hdi
    subst hdi
    simp only [exec, hn]
    rw [← hnid, performIteration_self]
    simp only [hnid, set_of_getElem? _ _ _ hn]
  · intro hdi
    have hne : d ≠ n.ID := by rw [hnid]; exact hdi
    obtain ⟨n1, ev, h1, h2, h3, h4, h5, h6, h7, h8⟩ :=
      performIteration_props s.numNodes n s.totalAmount d a hnwf hd hne
    have hdl : d < n.Accounts.length := by rw [hnwf.2.1]; exact hd
    have hil : n.ID < n.Accounts.length := by rw [hnwf.2.1]; exact hnwf.1
    refine ⟨{ s with nodes := s.nodes.set i n1, totalAmount := s.totalAmount + a }, n, n1,
      n.Accounts[d], n.Accounts[n.ID], ?_, hn, ?_, List.getElem?_eq_getElem hdl, ?_, ?_, ?_, ?_,
      h4, ?_, ?_, rfl, rfl, rfl, h5, ?_⟩
    · simp only [exec, hn, h1]
    · simp [List.getElem?_set_self hlt]
    · rw [← hnid]; exact List.getElem?_eq_getElem hil
    · rw [h3]; exact transferred_get_dest n d a _ hne (List.getElem?_eq_getElem hdl)
    · rw [h3, ← hnid]; exact transferred_get_self n d a _ (List.getElem?_eq_getElem hil)
    · intro j hj1 hj2
      rw [h3]
      exact transferred_get_other n d a j hj1 (by rw [hnid]; exact hj2)
    · intro k hk
      simp [List.getElem?_set_ne (fun e => hk e.symm)]
    · simp
    · rw [calculateSum_eq_sum, calculateSum_eq_sum, h3]
      exact transferred_sum n d a hdl hil hne

/-- Witness for C7: node 0 of the two-node system with all balances 1000 sends 50 to
node 1. -/
theorem transfer_step_spec_witness :
    SysWF (initSystem 2 (fun _ _ => 1000)) ∧
    ∃ s1, exec (initSystem 2 (fun _ _ => 1000)) (Action.iter 0 1 50) = some s1 ∧
      s1.totalAmount = (initSystem 2 (fun _ _ => 1000)).totalAmount + 50 := by
  refine ⟨by decide, ?_⟩
  obtain ⟨s1, _, _, _, _, h, _, _, _, _, _, _, _, _, _, _, _, _, ht, _⟩ :=
    (transfer_step_spec (initSystem 2 (fun _ _ => 1000)) 0 1 50 (by decide) (by decide)
      (by decide)).2 (by decide)
  exact ⟨s1, h, ht⟩

/-! ## The verifier loop -/

theorem consistentFrom_spec (state : List Int) (snap : List Int) (j : Nat)
    (hlen : j + snap.length ≤ state.length) :
    ∃ b, consistentFrom state j snap = some b ∧
      (b = true ↔ ∀ k, k < snap.length → snap[k]? = state[j + k]?) := by
  induction snap generalizing j with
  | nil => exact ⟨true, rfl, by simp⟩
  | cons x xs ih =>
    simp only [List.length_cons] at hlen
    have hj : j < state.length := by omega
    unfold consistentFrom
    simp only [List.getElem?_eq_getElem hj]
    by_cases hx : x = state[j]
    · obtain ⟨b, hb1, hb2⟩ := ih (j + 1) (by omega)
      refine ⟨b, by simp [hx, hb1], ?_⟩
      rw [hb2]
      constructor
      · intro h k hk
        cases k with
        | zero => simp [hx, List.getElem?_eq_getElem hj]
        | succ k =>
          have := h k (by simpa using hk)
          simpa [Nat.add_assoc, Nat.add_comm 1 k] using this
      · intro h k hk
        have := h (k + 1) (by simpa using hk)
        simpa [Nat.add_assoc, Nat.add_comm 1 k] using this
    · refine ⟨false, by simp [hx], ?_⟩
      simp only [Bool.false_eq_true, false_iff, not_forall]
      refine ⟨0, by simp, ?_⟩
      simp [List.getElem?_eq_getElem hj, hx]

/-- The loop of the verifier on vectors of length `numNodes`: it returns, and the boolean
is `true` exactly when the two vectors agree at every index. -/
theorem isConsistent_iff_all_entries (numNodes : Nat) (n : Node)
    (hsnap : n.Snapshot.length = numNodes) (hstate : n.State.length = numNodes) :
    ∃ b, isConsistent n = some b ∧
      (b = true ↔ ∀ j, j < numNodes → n.Snapshot[j]? = n.State[j]?) := by
  obtain ⟨b, h1, h2⟩ := consistentFrom_spec n.State n.Snapshot 0 (by omega)
  refine ⟨b, h1, ?_⟩
  rw [h2, hsnap]
  simp

/-! ## Marker handling (C4) -/

theorem handleSnapshotMessages_some (numNodes : Nat) (n : Node) (hwf : NodeWF numNodes n) :
    ∃ chs ev, handleSnapshotMessages numNodes n = some ({ n with MsgChannels := chs }, ev) ∧
      chs.length = numNodes ∧ chs[n.ID]? = n.MsgChannels[n.ID]? ∧
      ∀ msg, Event.send n.ID msg ∉ ev := by
  obtain ⟨hid, hacc, hch, hsn, hst⟩ := hwf
  have hv : n.Snapshot[n.ID]? = some n.Snapshot[n.ID] :=
    List.getElem?_eq_getElem (by rw [hsn]; exact hid)
  obtain ⟨chs, h1, h2, h3⟩ := sendEach_spec n.ID
    { Amount := n.Snapshot[n.ID], Source := n.ID, Marker := false } (List.range numNodes)
    n.MsgChannels (fun i hi => by rw [hch]; exact List.mem_range.mp hi) (List.nodup_range _)
  refine ⟨chs, ((List.range numNodes).filter (fun i => decide (i ≠ n.ID))).map
    (fun i => Event.send i { Amount := n.Snapshot[n.ID], Source := n.ID, Marker := false }),
    ?_, by rw [h2, hch], by simp [h3 n.ID], ?_⟩
  · unfold handleSnapshotMessages
    simp only [sendSnapshotRow_eq_sendEach n _ hv, h1]
  · intro msg hmem
    simp only [List.mem_map, List.mem_filter, List.mem_range, decide_eq_true_eq] at hmem
    obtain ⟨a, ⟨_, ha⟩, he⟩ := hmem
    cases he
    exact ha rfl

/-- What the body of the marker loop does for one message. -/
theorem handleMessage_spec (numNodes : Nat) (n : Node) (flags : List Bool) (msg : Transaction)
    (hwf : NodeWF numNodes n) (hfl : flags.length = numNodes)
    (hsrc : msg.Marker = true → msg.Source < numNodes) :
    ∃ n1 f1 ev, handleMessage numNodes n flags msg = some (n1, f1, ev) ∧
      NodeWF numNodes n1 ∧ f1.length = numNodes ∧ n1.ID = n.ID ∧
      n1.Accounts = n.Accounts ∧ n1.Snapshot = n.Snapshot ∧
      n1.MsgChannels[n.ID]? = n.MsgChannels[n.ID]? ∧
      ((msg.Marker = true ∧ flags[msg.Source]? = some false) →
        n1.State = n.State.set msg.Source (n.Accounts.getD msg.Source 0) ∧
        f1 = flags.set msg.Source true) ∧
      (¬ (msg.Marker = true ∧ flags[msg.Source]? = some false) →
        n1 = n ∧ f1 = flags ∧ ev = []) := by
  by_cases hm : msg.Marker = true
  · have hs := hsrc hm
    have hs1 : msg.Source < flags.length := by rw [hfl]; exact hs
    have hs2 : msg.Source < n.Accounts.length := by rw [hwf.2.1]; exact hs
    have hs3 : msg.Source < n.State.length := by rw [hwf.2.2.2.2]; exact hs
    by_cases hf : flags[msg.Source] = true
    · refine ⟨n, flags, [], ?_, hwf, hfl, rfl, rfl, rfl, rfl, ?_, fun _ => ⟨rfl, rfl, rfl⟩⟩
      · simp [handleMessage, hm, List.getElem?_eq_getElem hs1, hf]
      · intro h
        have := h.2
        rw [List.getElem?_eq_getElem hs1, hf] at this
        simp at this
    · have hwf1 : NodeWF numNodes
          { n with State := n.State.set msg.Source n.Accounts[msg.Source] } := by
        unfold NodeWF at *
        simpa using hwf
      obtain ⟨chs, ev, h1, h2, h3, _⟩ := handleSnapshotMessages_some numNodes _ hwf1
      refine ⟨{ n with State := n.State.set msg.Source n.Accounts[msg.Source],
                       MsgChannels := chs },
        flags.set msg.Source true, ev, ?_, ?_, by simpa using hfl, rfl, rfl, rfl,
        h3, ?_, ?_⟩
      · simp only [handleMessage, hm, List.getElem?_eq_getElem hs1, hf,
          List.getElem?_eq_getElem hs2, List.getElem?_eq_getElem hs3, h1]
        simp
      · exact ⟨hwf.1, hwf.2.1, h2, hwf.2.2.2.1, by simpa using hwf.2.2.2.2⟩
      · intro _
        simp [List.getElem?_eq_getElem hs2]
      · intro h
        exfalso
        apply h
        refine ⟨hm, ?_⟩
        rw [List.getElem?_eq_getElem hs1]
        simpa using hf
  · refine ⟨n, flags, [], ?_, hwf, hfl, rfl, rfl, rfl, rfl, ?_, fun _ => ⟨rfl, rfl, rfl⟩⟩
    · simp [handleMessage, hm]
    · intro h
      exact absurd h.1 hm

/-- The effect of one message on the flag and the recorded state of a source `S`. -/
theorem handleMessage_at (numNodes : Nat) (n : Node) (flags : List Bool) (msg : Transaction)
    (hwf : NodeWF numNodes n) (hfl : flags.length = numNodes)
    (hsrc : msg.Marker = true → msg.Source < numNodes) :
    ∃ n1 f1 ev, handleMessage numNodes n flags msg = some (n1, f1, ev) ∧
      NodeWF numNodes n1 ∧ f1.length = numNodes ∧ n1.ID = n.ID ∧
      n1.Accounts = n.Accounts ∧ n1.Snapshot = n.Snapshot ∧
      n1.MsgChannels[n.ID]? = n.MsgChannels[n.ID]? ∧
      (∀ S, (flags[S]? = some true ∨ ¬ (msg.Marker = true ∧ msg.Source = S)) →
        f1[S]? = flags[S]? ∧ n1.State[S]? = n.State[S]?) ∧
      (∀ S, msg.Marker = true → msg.Source = S → f1[S]? = some true) := by
  obtain ⟨n1, f1, ev, h1, h2, h3, h4, h5, h6, h7, h8, h9⟩ :=
    handleMessage_spec numNodes n flags msg hwf hfl hsrc
  refine ⟨n1, f1, ev, h1, h2, h3, h4, h5, h6, h7, ?_, ?_⟩
  · intro S hS
    by_cases hc : msg.Marker = true ∧ flags[msg.Source]? = some false
    · obtain ⟨hst, hf1⟩ := h8 hc
      have hne : msg.Source ≠ S := by
        intro e
        rcases hS with hS | hS
        · rw [e, hS] at hc
          simp at hc
        · exact hS ⟨hc.1, e⟩
      rw [hst, hf1, List.getElem?_set_ne hne, List.getElem?_set_ne hne]
      exact ⟨rfl, rfl⟩
    · obtain ⟨e1, e2, _⟩ := h9 hc
      rw [e1, e2]
      exact ⟨rfl, rfl⟩
  · intro S hm hS
    have hlt : msg.Source < flags.length := by rw [hfl]; exact hsrc hm
    by_cases hc : msg.Marker = true ∧ flags[msg.Source]? = some false
    · obtain ⟨_, hf1⟩ := h8 hc
      rw [hf1, ← hS, List.getElem?_set_self hlt]
    · obtain ⟨_, e2, _⟩ := h9 hc
      rw [e2, ← hS, List.getElem?_eq_getElem hlt]
      rw [List.getElem?_eq_getElem hlt] at hc
      cases hb : flags[msg.Source] with
      | true => rfl
      | false => exact absurd ⟨hm, by rw [hb]⟩ hc

/-- What the marker loop does over a list of messages. -/
theorem handleLoop_spec (numNodes : Nat) (msgs : List Transaction) (n : Node)
    (flags : List Bool) (hwf : NodeWF numNodes n) (hfl : flags.length = numNodes)
    (hsrc : ∀ x ∈ msgs, x.Marker = true → x.Source < numNodes) :
    ∃ n1 f1 ev, handleLoop numNodes n flags msgs = some (n1, f1, ev) ∧
      NodeWF numNodes n1 ∧ f1.length = numNodes ∧ n1.ID = n.ID ∧
      n1.Accounts = n.Accounts ∧ n1.Snapshot = n.Snapshot ∧
      n1.MsgChannels[n.ID]? = n.MsgChannels[n.ID]? ∧
      (∀ S, (flags[S]? = some true ∨ ∀ x ∈ msgs, ¬ (x.Marker = true ∧ x.Source = S)) →
        f1[S]? = flags[S]? ∧ n1.State[S]? = n.State[S]?) ∧
      (∀ S, (∃ x ∈ msgs, x.Marker = true ∧ x.Source = S) → f1[S]? = some true) := by
  induction msgs generalizing n flags with
  | nil =>
    exact ⟨n, flags, [], rfl, hwf, hfl, rfl, rfl, rfl, rfl, fun _ _ => ⟨rfl, rfl⟩,
      fun _ h => by simp at h⟩
  | cons msg rest ih =>
    obtain ⟨n1, f1, ev1, h1, h2, h3, h4, h5, h6, h7, h8, h9⟩ :=
      handleMessage_at numNodes n flags msg hwf hfl (hsrc msg (by simp))
    obtain ⟨n2, f2, ev2, k1, k2, k3, k4, k5, k6, k7, k8, k9⟩ :=
      ih n1 f1 h2 h3 (fun x hx => hsrc x (by simp [hx]))
    refine ⟨n2, f2, ev1 ++ ev2, ?_, k2, k3, by rw [k4, h4], by rw [k5, h5], by rw [k6, h6],
      ?_, ?_, ?_⟩
    · simp only [handleLoop, h1, k1]
    · rw [← h4, k7, h4, h7]
    · intro S hS
      have a1 : flags[S]? = some true ∨ ¬ (msg.Marker = true ∧ msg.Source = S) := by
        rcases hS with hS | hS
        · exact Or.inl hS
        · exact Or.inr (hS msg (by simp))
      obtain ⟨b1, b2⟩ := h8 S a1
      have a2 : f1[S]? = some true ∨ ∀ x ∈ rest, ¬ (x.Marker = true ∧ x.Source = S) := by
        rcases hS with hS | hS
        · exact Or.inl (by rw [b1, hS])
        · exact Or.inr (fun x hx => hS x (by simp [hx]))
      obtain ⟨c1, c2⟩ := k8 S a2
      exact ⟨by rw [c1, b1], by rw [c2, b2]⟩
    · intro S hS
      obtain ⟨x, hx, hxm, hxs⟩ := hS
      rcases List.mem_cons.mp hx with hx1 | hx1
      · subst hx1
        have := h9 S hxm hxs
        rw [(k8 S (Or.inl this)).1, this]
      · exact k9 S ⟨x, hx1, hxm, hxs⟩

theorem handleLoop_append (numNodes : Nat) (xs ys : List Transaction) (n : Node)
    (flags : List Bool) (n1 : Node) (f1 : List Bool) (ev1 : List Event)
    (h : handleLoop numNodes n flags xs = some (n1, f1, ev1)) :
    handleLoop numNodes n flags (xs ++ ys) =
      match handleLoop numNodes n1 f1 ys with
      | none => none
      | some (n2, f2, ev2) => some (n2, f2, ev1 ++ ev2) := by
  induction xs generalizing n flags n1 f1 ev1 with
  | nil =>
    simp only [handleLoop] at h
    cases h
    rw [List.nil_append]
    cases hh : handleLoop numNodes n flags ys with
    | none => rfl
    | some r =>
      obtain ⟨a, b, c⟩ := r
      simp
  | cons x rest ih =>
    rw [List.cons_append]
    simp only [handleLoop] at h ⊢
    cases hx : handleMessage numNodes n flags x with
    | none => simp [hx] at h
    | some r =>
      obtain ⟨na, fa, ea⟩ := r
      simp only [hx] at h ⊢
      cases hr : handleLoop numNodes na fa rest with
      | none => simp [hr] at h
      | some r2 =>
        obtain ⟨nb, fb, eb⟩ := r2
        simp only [hr] at h
        cases h
        rw [ih na fa n1 f1 eb hr]
        cases hh : handleLoop numNodes n1 f1 ys with
        | none => rfl
        | some r3 =>
          obtain ⟨a, b, c⟩ := r3
          simp

/-- C4: let a well-formed node's marker loop process the messages `pre`, then a marker `m`
from source `S`, then `post` (marker sources in range).  All three stages return.  If no
marker from `S` occurs in `pre`, the flag of `S` is still unset and `State[S]` untouched
before `m`, and handling `m` sets `State[S]` to the node's current `Accounts[S]` and sets the
flag.  If a marker from `S` occurs in `pre`, handling `m` leaves the node (`Accounts`,
`Snapshot`, `State`, channels) and the flag array unchanged and emits no message.  In both
cases `State[S]` is never written again: after `post` it still has the value it had right
after `m`, and the flag of `S` is set. -/
theorem marker_idempotence (numNodes : Nat) (n : Node) (pre post : List Transaction)
    (m : Transaction) (hwf : NodeWF numNodes n)
    (hsrc : ∀ x ∈ pre ++ m :: post, x.Marker = true → x.Source < numNodes)
    (hm : m.Marker = true) :
    ∃ n1 f1 e1 n2 f2 e2 n3 f3 e3,
      handleMarkerMessages numNodes n pre = some (n1, f1, e1) ∧
      handleMessage numNodes n1 f1 m = some (n2, f2, e2) ∧
      handleMarkerMessages numNodes n (pre ++ m :: post) = some (n3, f3, e3) ∧
      n2.Accounts = n1.Accounts ∧ n2.Snapshot = n1.Snapshot ∧
      ((∀ x ∈ pre, ¬ (x.Marker = true ∧ x.Source = m.Source)) →
        f1[m.Source]? = some false ∧ n1.State[m.Source]? = n.State[m.Source]? ∧
        n2.State = n1.State.set m.Source (n1.Accounts.getD m.Source 0) ∧
        f2 = f1.set m.Source true) ∧
      ((∃ x ∈ pre, x.Marker = true ∧ x.Source = m.Source) →
        n2 = n1 ∧ f2 = f1 ∧ e2 = []) ∧
      n3.State[m.Source]? = n2.State[m.Source]? ∧ f3[m.Source]? = some true := by
  have hS : m.Source < numNodes := hsrc m (by simp) hm
  obtain ⟨n1, f1, e1, a1, a2, a3, a4, a5, a6, a7, a8, a9⟩ :=
    handleLoop_spec numNodes pre n (List.replicate numNodes false) hwf (by simp)
      (fun x hx => hsrc x (by simp [hx]))
  obtain ⟨n2, f2, e2, b1, b2, b3, b4, b5, b6, b7, b8, b9⟩ :=
    handleMessage_spec numNodes n1 f1 m a2 a3 (fun _ => hS)
  obtain ⟨_, _, _, c1, _, _, _, _, _, _, _, c9⟩ :=
    handleMessage_at numNodes n1 f1 m a2 a3 (fun _ => hS)
  rw [b1] at c1
  cases c1
  have hf2 : f2[m.Source]? = some true := c9 m.Source hm rfl
  obtain ⟨n3, f3, e3, d1, d2, d3, d4, d5, d6, d7, d8, d9⟩ :=
    handleLoop_spec numNodes post n2 f2 b2 b3 (fun x hx => hsrc x (by simp [hx]))
  have hd := d8 m.Source (Or.inl hf2)
  refine ⟨n1, f1, e1, n2, f2, e2, n3, f3, e1 ++ (e2 ++ e3), a1, b1, ?_, b5, b6, ?_, ?_,
    hd.2, by rw [hd.1, hf2]⟩
  · unfold handleMarkerMessages
    rw [handleLoop_append numNodes pre (m :: post) n _ n1 f1 e1 a1]
    simp only [handleLoop, b1, d1]
  · intro hno
    obtain ⟨g1, g2⟩ := a8 m.Source (Or.inr hno)
    have hfalse : f1[m.Source]? = some false := by
      rw [g1]
      simp [hS]
    obtain ⟨k1, k2⟩ := b8 ⟨hm, hfalse⟩
    exact ⟨hfalse, g2, k1, k2⟩
  · intro hex
    have htrue : f1[m.Source]? = some true := a9 m.Source hex
    have hc : ¬ (m.Marker = true ∧ f1[m.Source]? = some false) := by
      rw [htrue]
      simp
    exact b9 hc

/-- Witness for C4: node 1 of three nodes receives two markers from source 0, a marker
from source 2 and a further marker from source 0. -/
theorem marker_idempotence_witness :
    ∃ n1 f1 e1 n2 f2 e2 n3 f3 e3,
      handleMarkerMessages 3 sampleNode [markerOf 0] = some (n1, f1, e1) ∧
      handleMessage 3 n1 f1 (markerOf 0) = some (n2, f2, e2) ∧
      handleMarkerMessages 3 sampleNode ([markerOf 0] ++ markerOf 0 :: [markerOf 2, markerOf 0])
        = some (n3, f3, e3) ∧
      n2 = n1 ∧ f2 = f1 ∧ e2 = [] ∧ n3.State[0]? = n2.State[0]? := by
  obtain ⟨n1, f1, e1, n2, f2, e2, n3, f3, e3, h1, h2, h3, _, _, _, h7, h8, _⟩ :=
    marker_idempotence 3 sampleNode [markerOf 0] [markerOf 2, markerOf 0] (markerOf 0)
      (by decide) (by decide) (by decide)
  obtain ⟨k1, k2, k3⟩ := h7 ⟨markerOf 0, by decide⟩
  exact ⟨n1, f1, e1, n2, f2, e2, n3, f3, e3, h1, h2, h3, k1, k2, k3, h8⟩

/-! ## The snapshot threshold (C8) -/

theorem snapshotCalls_markerEvents (numNodes id : Nat) :
    snapshotCalls (markerEvents numNodes id) = 0 := by
  unfold snapshotCalls markerEvents
  rw [List.countP_eq_zero]
  intro e he
  simp only [List.mem_map] at he
  obtain ⟨i, _, rfl⟩ := he
  simp [Event.isSnapshotCall]

theorem snapshotCalls_append (xs ys : List Event) :
    snapshotCalls (xs ++ ys) = snapshotCalls xs + snapshotCalls ys := by
  unfold snapshotCalls
  exact List.countP_append _ _ _

/-- One iteration on a well-formed node: the counter and the number of snapshot calls. -/
theorem performIteration_calls (numNodes : Nat) (n : Node) (t : Int) (d : Nat) (a : Int)
    (hwf : NodeWF numNodes n) (hd : d < numNodes) :
    ∃ n1 t1 ev, performIteration numNodes n t d a = some (n1, t1, ev) ∧
      NodeWF numNodes n1 ∧ n1.ID = n.ID ∧
      n1.transactionCount = n.transactionCount + (if d ≠ n.ID then 1 else 0) ∧
      snapshotCalls ev =
        (if d ≠ n.ID ∧ (n.transactionCount + 1) % TransactionsPerSnapshot = 0 then 1 else 0) ∧
      (Event.snapshotCall n.ID ∈ ev ↔
        (d ≠ n.ID ∧ (n.transactionCount + 1) % TransactionsPerSnapshot = 0)) ∧
      (d ≠ n.ID → ev = Event.transferLog n.ID a d ::
        (if (n.transactionCount + 1) % TransactionsPerSnapshot = 0
          then Event.snapshotCall n.ID :: markerEvents numNodes n.ID else [])) := by
  by_cases hne : d = n.ID
  · refine ⟨n, t, [], ?_, hwf, rfl, by simp [hne], by simp [hne, snapshotCalls], by simp [hne],
      fun h => absurd hne h⟩
    rw [hne, performIteration_self]
  · obtain ⟨n1, ev, h1, h2, _, _, h5, h6, _, h8⟩ :=
      performIteration_props numNodes n t d a hwf hd hne
    refine ⟨n1, t + a, ev, h1, h6, h2, by simp [hne, h5], ?_, ?_, ?_⟩
    · rcases h8 with ⟨hk, _, hev⟩ | ⟨hk, _, hev⟩
      · simp [hev, hk, snapshotCalls, Event.isSnapshotCall]
      · have := snapshotCalls_markerEvents numNodes n.ID
        unfold snapshotCalls at this ⊢
        simp [hev, hk, hne, Event.isSnapshotCall, this]
    · rcases h8 with ⟨hk, _, hev⟩ | ⟨hk, _, hev⟩
      · simp [hev, hk]
      · simp [hev, hk, hne]
    · intro _
      rcases h8 with ⟨hk, _, hev⟩ | ⟨hk, _, hev⟩
      · simp [hev, hk]
      · simp [hev, hk]

/-- The transfer loop on a well-formed node: it returns, and the number of snapshot calls
is the number of multiples of `TransactionsPerSnapshot` that the counter passes. -/
theorem performLoop_calls (numNodes : Nat) (gen : Nat → Nat × Int) (is : List Nat) (n : Node)
    (t : Int) (hwf : NodeWF numNodes n) (hgen : ∀ i ∈ is, (gen i).1 < numNodes) :
    ∃ n1 t1 ev, performLoop numNodes gen is n t = some (n1, t1, ev) ∧
      NodeWF numNodes n1 ∧ n1.ID = n.ID ∧
      n1.transactionCount = n.transactionCount + successes gen n.ID is ∧
      n.transactionCount / TransactionsPerSnapshot + snapshotCalls ev
        = (n.transactionCount + successes gen n.ID is) / TransactionsPerSnapshot := by
  induction is generalizing n t with
  | nil =>
    exact ⟨n, t, [], rfl, hwf, rfl, by simp [successes], by simp [successes, snapshotCalls]⟩
  | cons i rest ih =>
    obtain ⟨n1, t1, ev1, h1, h2, h3, h4, h5, _, _⟩ :=
      performIteration_calls numNodes n t (gen i).1 (gen i).2 hwf (hgen i (by simp))
    obtain ⟨n2, t2, ev2, k1, k2, k3, k4, k5⟩ :=
      ih n1 t1 h2 (fun j hj => hgen j (by simp [hj]))
    refine ⟨n2, t2, ev1 ++ ev2, ?_, k2, by rw [k3, h3], ?_, ?_⟩
    · simp only [performLoop, h1, k1]
    · rw [k4, h4, h3]
      by_cases hne : (gen i).1 = n.ID
      · simp [successes, hne]
      · simp [successes, hne]
        omega
    · rw [snapshotCalls_append, h5]
      rw [h4, h3] at k5
      unfold TransactionsPerSnapshot at *
      by_cases hne : (gen i).1 = n.ID
      · simp only [hne, ne_eq, not_true_eq_false, false_and, if_false, Nat.add_zero] at k5 ⊢
        simp only [successes, List.countP_cons, hne, ne_eq, not_true_eq_false, decide_False,
          Bool.false_eq_true, if_false, Nat.add_zero] at k5 ⊢
        omega
      · simp only [hne, ne_eq, not_false_eq_true, true_and, if_true] at k5 ⊢
        simp only [successes, List.countP_cons, hne, ne_eq, not_false_eq_true, decide_True,
          if_true] at k5 ⊢
        by_cases hk : (n.transactionCount + 1) % 15 = 0
        · simp only [hk, if_true] at k5 ⊢
          omega
        · simp only [hk, if_false] at k5 ⊢
          omega

/-- C8: (per iteration) on a well-formed node, an iteration with an in-range destination
calls `initiateSnapshot` exactly when the destination is another node and the new value
`k` of `transactionCount` (the number of successful transfers so far) is a multiple of
`TransactionsPerSnapshot`, and the call comes right after that transfer.  (Per run) from
`transactionCount = 0`, `performTransaction` with in-range destinations returns after its
15 iterations, having called `initiateSnapshot` at most once, and exactly once if and only
if none of the 15 generated destinations equals the node's id. -/
theorem snapshot_threshold (numNodes : Nat) (n : Node) (t : Int) (gen : Nat → Nat × Int)
    (hwf : NodeWF numNodes n) (hcount : n.transactionCount = 0)
    (hgen : ∀ i, i < TransactionsPerSnapshot → (gen i).1 < numNodes) :
    (∀ (m : Node) (t0 : Int) (d : Nat) (a : Int), NodeWF numNodes m → d < numNodes →
      ∃ m1 t1 ev, performIteration numNodes m t0 d a = some (m1, t1, ev) ∧
        m1.transactionCount = m.transactionCount + (if d ≠ m.ID then 1 else 0) ∧
        (Event.snapshotCall m.ID ∈ ev ↔
          (d ≠ m.ID ∧ m1.transactionCount % TransactionsPerSnapshot = 0)) ∧
        (d ≠ m.ID → ev = Event.transferLog m.ID a d ::
          (if m1.transactionCount % TransactionsPerSnapshot = 0
            then Event.snapshotCall m.ID :: markerEvents numNodes m.ID else []))) ∧
    ∃ n1 t1 ev, performTransaction numNodes n t gen = some (n1, t1, ev) ∧
      n1.transactionCount = successes gen n.ID (List.range TransactionsPerSnapshot) ∧
      snapshotCalls ev ≤ 1 ∧
      (snapshotCalls ev = 1 ↔ ∀ i, i < TransactionsPerSnapshot → (gen i).1 ≠ n.ID) := by
  constructor
  · intro m t0 d a hm hd
    obtain ⟨m1, t1, ev, h1, _, _, h4, _, h6, h7⟩ :=
      performIteration_calls numNodes m t0 d a hm hd
    refine ⟨m1, t1, ev, h1, h4, ?_, ?_⟩
    · rw [h6]
      constructor
      · rintro ⟨ha, hb⟩
        exact ⟨ha, by rw [h4, if_pos ha]; exact hb⟩
      · rintro ⟨ha, hb⟩
        exact ⟨ha, by rw [h4, if_pos ha] at hb; exact hb⟩
    · intro hne
      rw [h7 hne, h4, if_pos hne]
  · obtain ⟨n1, t1, ev, h1, _, _, h4, h5⟩ :=
      performLoop_calls numNodes gen (List.range TransactionsPerSnapshot) n t hwf
        (fun i hi => hgen i (List.mem_range.mp hi))
    rw [hcount] at h4 h5
    have hle : successes gen n.ID (List.range TransactionsPerSnapshot)
        ≤ TransactionsPerSnapshot := by
      unfold successes
      have := List.countP_le_length (fun i => decide ((gen i).1 ≠ n.ID))
        (l := List.range TransactionsPerSnapshot)
      simpa using this
    have hall : successes gen n.ID (List.range TransactionsPerSnapshot)
        = TransactionsPerSnapshot ↔ ∀ i, i < TransactionsPerSnapshot → (gen i).1 ≠ n.ID := by
      unfold successes
      have := List.countP_eq_length (p := fun i => decide ((gen i).1 ≠ n.ID))
        (l := List.range TransactionsPerSnapshot)
      simp only [List.length_range, List.mem_range, decide_eq_true_eq] at this
      exact this
    refine ⟨n1, t1, ev, h1, by simpa using h4, ?_, ?_⟩
    · unfold TransactionsPerSnapshot at *
      omega
    · rw [← hall]
      unfold TransactionsPerSnapshot at *
      omega

/-- Witness for C8: node 0 of two nodes, every generated transfer goes to node 1. -/
theorem snapshot_threshold_witness :
    ∃ n1 t1 ev, performTransaction 2 (initNode 2 0 (fun _ _ => 1000)) 4000 (fun _ => (1, 50))
        = some (n1, t1, ev) ∧ snapshotCalls ev = 1 := by
  obtain ⟨n1, t1, ev, h1, _, _, h4⟩ :=
    (snapshot_threshold 2 (initNode 2 0 (fun _ _ => 1000)) 4000 (fun _ => (1, 50))
      (by decide) (by decide) (fun _ _ => (by decide : (1 : Nat) < 2))).2
  exact ⟨n1, t1, ev, h1, h4.mpr (fun _ _ => (by decide : (1 : Nat) ≠ 0))⟩

/-! ## Steps of the system -/

theorem performIteration_oob (numNodes : Nat) (n : Node) (t : Int) (d : Nat) (a : Int)
    (hne : d ≠ n.ID) (hd : n.Accounts.length ≤ d) :
    performIteration numNodes n t d a = none := by
  unfold performIteration
  simp [hne, List.getElem?_eq_none hd]

/-- Every enabled step of a well-formed system whose own-inbox channels are empty changes
one node, and is a transfer iteration or a snapshot initiation. -/
theorem exec_summary (s s1 : System) (act : Action) (hwf : SysWF s)
    (hin : ∀ n ∈ s.nodes, n.MsgChannels[n.ID]? = some []) (h : exec s act = some s1) :
    ∃ i n n1 a, s.nodes[i]? = some n ∧
      s1 = { s with nodes := s.nodes.set i n1, totalAmount := s.totalAmount + a } ∧
      n1.ID = i ∧ n.ID = i ∧ NodeWF s.numNodes n1 ∧ n1.State = n.State ∧
      n1.MsgChannels[i]? = some [] ∧ n1.Accounts.sum = n.Accounts.sum ∧
      n1.Accounts.getD i 0 = n.Accounts.getD i 0 - a ∧
      (a = 0 ∨ ∃ d, act = Action.iter i d a) ∧
      (n1.Snapshot = n.Snapshot ∨
        (n1.Snapshot = n1.Accounts ∧ (act = Action.snap i ∨ 2 ≤ s.numNodes))) ∧
      (∀ j, act ≠ Action.recv j) := by
  cases act with
  | iter i d a =>
    simp only [exec] at h
    cases hn : s.nodes[i]? with
    | none => simp [hn] at h
    | some n =>
      obtain ⟨hid, hnwf⟩ := sysWF_of_get s hwf i n hn
      have hmem : n ∈ s.nodes := List.getElem?_mem hn
      have hinb := hin n hmem
      simp only [hn] at h
      by_cases hdi : d = n.ID
      · rw [hdi, performIteration_self] at h
        simp only [Option.some.injEq] at h
        refine ⟨i, n, n, 0, hn, ?_, hid, hid, hnwf, rfl, by rw [← hid]; exact hinb, rfl,
          by simp, Or.inl rfl, Or.inl rfl, fun j hj => by cases hj⟩
        rw [← h]
        simp
      · by_cases hd : d < s.numNodes
        · obtain ⟨n1, ev, k1, k2, k3, k4, k5, k6, k7, k8⟩ :=
            performIteration_props s.numNodes n s.totalAmount d a hnwf hd hdi
          rw [k1] at h
          simp only [Option.some.injEq] at h
          have hil : n.ID < n.Accounts.length := by rw [hnwf.2.1]; exact hnwf.1
          have hdl : d < n.Accounts.length := by rw [hnwf.2.1]; exact hd
          have h2 : 2 ≤ s.numNodes := by
            have := hnwf.1
            omega
          refine ⟨i, n, n1, a, hn, h.symm, by rw [k2, hid], hid, k6, k4,
            by rw [← hid, k7]; exact hinb, ?_, ?_, Or.inr ⟨d, rfl⟩, ?_,
            fun j hj => by cases hj⟩
          · rw [k3]; exact transferred_sum n d a hdl hil hdi
          · rw [k3, ← hid]
            have := transferred_get_self n d a _ (List.getElem?_eq_getElem hil)
            simp [List.getD_eq_getElem?_getD, this, List.getElem?_eq_getElem hil]
          · rcases k8 with ⟨_, e, _⟩ | ⟨_, e, _⟩
            · exact Or.inl (by rw [e]; rfl)
            · exact Or.inr ⟨e, Or.inr h2⟩
        · rw [performIteration_oob s.numNodes n s.totalAmount d a hdi
            (by rw [hnwf.2.1]; omega)] at h
          simp at h
  | snap i =>
    simp only [exec] at h
    cases hn : s.nodes[i]? with
    | none => simp [hn] at h
    | some n =>
      obtain ⟨hid, hnwf⟩ := sysWF_of_get s hwf i n hn
      have hmem : n ∈ s.nodes := List.getElem?_mem hn
      have hinb := hin n hmem
      simp only [hn] at h
      obtain ⟨chs, k1, k2, k3⟩ := initiateSnapshot_some s.numNodes n hnwf.2.2.1
      rw [k1] at h
      simp only [Option.some.injEq] at h
      have hcopy := goCopy_make s.numNodes n.Accounts hnwf.2.1
      refine ⟨i, n, { n with Snapshot := goCopy (makeInts s.numNodes) n.Accounts,
                             MsgChannels := chs }, 0, hn, ?_, hid, hid, ?_, rfl, ?_, rfl,
        by simp, Or.inl rfl, Or.inr ⟨hcopy, Or.inl rfl⟩, fun j hj => by cases hj⟩
      · rw [← h]
        simp
      · exact ⟨hnwf.1, hnwf.2.1, k2, by simp [hcopy, hnwf.2.1], hnwf.2.2.2.2⟩
      · have := k3 n.ID
        simp only [ne_eq, not_true_eq_false, and_false, if_false] at this
        show chs[i]? = some []
        rw [← hid, this]
        exact hinb
  | recv i =>
    simp only [exec] at h
    cases hn : s.nodes[i]? with
    | none => simp [hn] at h
    | some n =>
      have hmem : n ∈ s.nodes := List.getElem?_mem hn
      have hinb := hin n hmem
      cases hf : s.receivedMarkers[i]? with
      | none => simp [hn, hf] at h
      | some flags => simp [hn, hf, hinb] at h

/-! ## Invariants of reachable states -/

theorem ownBalanceFrom_set (k : Nat) (nodes : List Node) (j : Nat) (n n1 : Node)
    (h : nodes[j]? = some n) :
    ownBalanceFrom k (nodes.set j n1)
      = ownBalanceFrom k nodes - n.Accounts.getD (k + j) 0 + n1.Accounts.getD (k + j) 0 := by
  induction nodes generalizing k j with
  | nil => simp at h
  | cons m rest ih =>
    cases j with
    | zero =>
      simp at h
      subst h
      simp only [List.set_cons_zero, ownBalanceFrom, Nat.add_zero]
      ring
    | succ j =>
      simp at h
      simp only [List.set_cons_succ, ownBalanceFrom]
      rw [ih (k + 1) j h]
      have : k + 1 + j = k + (j + 1) := by omega
      rw [this]
      ring

theorem initSystem_wf (numNodes : Nat) (init : Nat → Nat → Int) :
    SysWF (initSystem numNodes init) := by
  constructor
  · simp [initSystem, initNode, Function.comp_def]
  · intro n hn
    simp only [initSystem, List.mem_map, List.mem_range] at hn
    obtain ⟨i, hi, rfl⟩ := hn
    simp [NodeWF, initNode, makeInts, hi, initSystem]

theorem initSystem_get (numNodes : Nat) (init : Nat → Nat → Int) (i : Nat) (n : Node)
    (h : (initSystem numNodes init).nodes[i]? = some n) :
    i < numNodes ∧ n = initNode numNodes i init := by
  simp only [initSystem, List.getElem?_map] at h
  by_cases hi : i < numNodes
  · rw [List.getElem?_range hi] at h
    simp at h
    exact ⟨hi, h.symm⟩
  · rw [List.getElem?_eq_none (by simpa using hi)] at h
    simp at h

theorem initSystem_invariant (numNodes : Nat) (init : Nat → Nat → Int) :
    Invariant numNodes init (initSystem numNodes init) := by
  refine ⟨initSystem_wf numNodes init, rfl, ?_, ?_, rfl, ?_, by simp⟩
  · intro n hn
    simp only [initSystem, List.mem_map, List.mem_range] at hn
    obtain ⟨i, hi, rfl⟩ := hn
    simp [initNode, hi]
  · intro n hn
    simp only [initSystem, List.mem_map, List.mem_range] at hn
    obtain ⟨i, hi, rfl⟩ := hn
    rfl
  · intro i n h
    rw [(initSystem_get numNodes init i n h).2]

theorem invariant_step (numNodes : Nat) (init : Nat → Nat → Int) (s s1 : System)
    (act : Action) (hinv : Invariant numNodes init s) (h : exec s act = some s1) :
    Invariant numNodes init s1 := by
  obtain ⟨i, n, n1, a, hn, hs1, hid1, hid, hwf1, hst, hin1, hsum, hown, _, _, _⟩ :=
    exec_summary s s1 act hinv.wf hinv.inbox h
  have hmem : n ∈ s.nodes := List.getElem?_mem hn
  subst hs1
  refine ⟨sysWF_set s hinv.wf i n1 _ _ hid1 hwf1, hinv.num, ?_, ?_, hinv.flags, ?_, ?_⟩
  · intro m hm
    rcases List.mem_or_eq_of_mem_set hm with hm1 | hm1
    · exact hinv.inbox m hm1
    · rw [hm1, hid1]; exact hin1
  · intro m hm
    rcases List.mem_or_eq_of_mem_set hm with hm1 | hm1
    · exact hinv.state m hm1
    · rw [hm1, hst]; exact hinv.state n hmem
  · intro j m hm
    by_cases hji : j = i
    · subst hji
      have hlt : j < s.nodes.length := (List.getElem?_eq_some.mp hn).1
      simp only [List.getElem?_set_self hlt, Option.some.injEq] at hm
      rw [← hm, hsum]
      exact hinv.sums j n hn
    · simp only [List.getElem?_set_ne (fun e => hji e.symm)] at hm
      exact hinv.sums j m hm
  · have := hinv.own
    simp only [ownBalanceSum] at this ⊢
    rw [ownBalanceFrom_set 0 s.nodes i n n1 hn]
    simp only [Nat.zero_add]
    rw [hown]
    linarith

theorem execAll_invariant (numNodes : Nat) (init : Nat → Nat → Int) (acts : List Action)
    (s0 s : System) (h0 : Invariant numNodes init s0) (h : execAll s0 acts = some s) :
    Invariant numNodes init s := by
  induction acts generalizing s0 with
  | nil =>
    simp only [execAll, Option.some.injEq] at h
    rw [← h]; exact h0
  | cons act rest ih =>
    simp only [execAll] at h
    cases hs : exec s0 act with
    | none => simp [hs] at h
    | some s1 =>
      simp only [hs] at h
      exact ih s1 (invariant_step numNodes init s0 s1 act h0 hs) h

/-! ## No delivery (C9) -/

theorem invariant_recv_blocked (numNodes : Nat) (init : Nat → Nat → Int) (s : System)
    (hinv : Invariant numNodes init s) (i : Nat) : exec s (Action.recv i) = none := by
  cases h : exec s (Action.recv i) with
  | none => rfl
  | some s1 =>
    obtain ⟨_, _, _, _, _, _, _, _, _, _, _, _, _, _, _, hne⟩ :=
      exec_summary s s1 (Action.recv i) hinv.wf hinv.inbox h
    exact absurd rfl (hne i)

theorem execAll_no_recv (numNodes : Nat) (init : Nat → Nat → Int) (acts : List Action)
    (s0 s : System) (h0 : Invariant numNodes init s0) (h : execAll s0 acts = some s) (i : Nat) :
    Action.recv i ∉ acts := by
  induction acts generalizing s0 with
  | nil => simp
  | cons act rest ih =>
    simp only [execAll] at h
    cases hs : exec s0 act with
    | none => simp [hs] at h
    | some s1 =>
      simp only [hs] at h
      intro hmem
      rcases List.mem_cons.mp hmem with e | e
      · rw [← e, invariant_recv_blocked numNodes init s0 h0 i] at hs
        cases hs
      · exact ih s1 (invariant_step numNodes init s0 s1 act h0 hs) h e

/-- C9: in every state reached from the initial state of `main` by any sequence of
transfer iterations, snapshot initiations and marker-loop receives, every node `i` has an
empty own channel `MsgChannels[i]` and an all-zero `State`, no flag has been set, no
receive step is enabled, and no receive step has occurred; the sends of `initiateSnapshot`
and `handleSnapshotMessages` of a well-formed node never go to channel `n.ID`. -/
theorem no_delivery (numNodes : Nat) (init : Nat → Nat → Int) (acts : List Action)
    (s : System) (h : execAll (initSystem numNodes init) acts = some s) :
    (∀ i, i < numNodes → ∃ n, s.nodes[i]? = some n ∧ n.ID = i ∧
      n.MsgChannels[i]? = some [] ∧ n.State = List.replicate numNodes 0) ∧
    (∀ i, exec s (Action.recv i) = none) ∧
    (∀ i, Action.recv i ∉ acts) ∧
    s.receivedMarkers = List.replicate numNodes (List.replicate numNodes false) ∧
    (∀ n : Node, NodeWF numNodes n →
      (∃ n1 ev, initiateSnapshot numNodes n = some (n1, ev) ∧
        ∀ msg, Event.send n.ID msg ∉ ev) ∧
      (∃ n1 ev, handleSnapshotMessages numNodes n = some (n1, ev) ∧
        ∀ msg, Event.send n.ID msg ∉ ev)) := by
  have hinv := execAll_invariant numNodes init acts _ s (initSystem_invariant numNodes init) h
  refine ⟨?_, invariant_recv_blocked numNodes init s hinv,
    execAll_no_recv numNodes init acts _ s (initSystem_invariant numNodes init) h,
    hinv.flags, ?_⟩
  · intro i hi
    obtain ⟨n, hn, hid, _⟩ := sysWF_get s hinv.wf i (by rw [hinv.num]; exact hi)
    have hmem : n ∈ s.nodes := List.getElem?_mem hn
    refine ⟨n, hn, hid, ?_, hinv.state n hmem⟩
    rw [← hid]
    exact hinv.inbox n hmem
  · intro n hwf
    constructor
    · obtain ⟨chs, h1, _, _⟩ := initiateSnapshot_some numNodes n hwf.2.2.1
      refine ⟨_, _, h1, ?_⟩
      intro msg hmem
      simp only [markerEvents, List.mem_map, List.mem_filter, List.mem_range,
        decide_eq_true_eq] at hmem
      obtain ⟨a, ⟨_, ha⟩, he⟩ := hmem
      cases he
      exact ha rfl
    · obtain ⟨chs, ev, h1, _, _, h4⟩ := handleSnapshotMessages_some numNodes n hwf
      exact ⟨_, ev, h1, h4⟩

/-- Witness for C9: three nodes; nodes 0 and 2 transfer, node 0 initiates a snapshot. -/
theorem no_delivery_witness :
    ∃ s, execAll (initSystem 3 (fun i j => 900 + i + j))
        [Action.iter 0 1 50, Action.snap 0, Action.iter 2 0 7] = some s ∧
      ∀ i, exec s (Action.recv i) = none := by
  refine ⟨_, rfl, ?_⟩
  exact (no_delivery 3 (fun i j => 900 + i + j)
    [Action.iter 0 1 50, Action.snap 0, Action.iter 2 0 7] _ rfl).2.1

/-! ## Conservation (C1) -/

/-- C1, as amended: in every state reached from the initial state of `main` by any sequence
of steps (transfer iterations of any nodes with any destinations and amounts, also snapshot
initiations and receives), every node's balance vector has the sum it had initially, and the
sum of the own-balance entries `nodes[i].Accounts[i]` equals its initial value minus the
total of the amounts transferred (the growth of `totalAmount`). -/
theorem vector_sum_conservation (numNodes : Nat) (init : Nat → Nat → Int)
    (acts : List Action) (s : System)
    (h : execAll (initSystem numNodes init) acts = some s) :
    (∀ i, i < numNodes → ∃ n, s.nodes[i]? = some n ∧
      calculateSum n.Accounts = calculateSum (initNode numNodes i init).Accounts) ∧
    ownBalanceSum s.nodes = ownBalanceSum (initSystem numNodes init).nodes
      - (s.totalAmount - (initSystem numNodes init).totalAmount) := by
  have hinv := execAll_invariant numNodes init acts _ s (initSystem_invariant numNodes init) h
  constructor
  · intro i hi
    obtain ⟨n, hn, _, _⟩ := sysWF_get s hinv.wf i (by rw [hinv.num]; exact hi)
    exact ⟨n, hn, by rw [calculateSum_eq_sum, calculateSum_eq_sum]; exact hinv.sums i n hn⟩
  · have := hinv.own
    linarith

/-- Witness for C1 (amended): two nodes, two transfers. -/
theorem vector_sum_conservation_witness :
    ∃ s, execAll (initSystem 2 (fun _ _ => 1000)) [Action.iter 0 1 50, Action.iter 1 0 20]
        = some s ∧
      ownBalanceSum s.nodes = ownBalanceSum (initSystem 2 (fun _ _ => 1000)).nodes
        - (s.totalAmount - (initSystem 2 (fun _ _ => 1000)).totalAmount) := by
  refine ⟨_, rfl, ?_⟩
  exact (vector_sum_conservation 2 (fun _ _ => 1000)
    [Action.iter 0 1 50, Action.iter 1 0 20] _ rfl).2

/-- C1 as stated fails: after node 0 of two nodes (all balances 1000) sends 50 to node 1,
the own-balance entries sum to 1950 instead of the initial 2000. -/
theorem own_balance_sum_not_conserved :
    ∃ s, execAll (initSystem 2 (fun _ _ => 1000)) [Action.iter 0 1 50] = some s ∧
      ownBalanceSum (initSystem 2 (fun _ _ => 1000)).nodes = 2000 ∧
      ownBalanceSum s.nodes = 1950 :=
  ⟨_, rfl, by decide, by decide⟩

/-! ## Totals never match (C10) -/

theorem runInvariant_init (numNodes : Nat) (init : Nat → Nat → Int) :
    RunInvariant numNodes init (initSystem numNodes init) := by
  refine ⟨?_, le_refl _⟩
  intro i n h
  rw [(initSystem_get numNodes init i n h).2]
  left
  simp [initNode, makeInts]

theorem runInvariant_step (numNodes : Nat) (init : Nat → Nat → Int) (s s1 : System)
    (act : Action) (hinv : Invariant numNodes init s) (hrun : RunInvariant numNodes init s)
    (hact : act.isRunStep) (h : exec s act = some s1) :
    RunInvariant numNodes init s1 := by
  obtain ⟨i, n, n1, a, hn, hs1, hid1, hid, hwf1, hst, hin1, hsum, hown, ha, hsnap, _⟩ :=
    exec_summary s s1 act hinv.wf hinv.inbox h
  subst hs1
  have hlt : i < s.nodes.length := (List.getElem?_eq_some.mp hn).1
  constructor
  · intro j m hm
    by_cases hji : j = i
    · subst hji
      simp only [List.getElem?_set_self hlt, Option.some.injEq] at hm
      rw [← hm]
      rcases hsnap with e | ⟨e, hcase⟩
      · rw [e]; exact hrun.snap j n hn
      · rcases hcase with hc | hc
        · rw [hc] at hact
          exact absurd hact (by simp [Action.isRunStep])
        · right
          refine ⟨by rw [← hinv.num]; exact hc, ?_⟩
          rw [e, hsum]
          exact hinv.sums j n hn
    · simp only [List.getElem?_set_ne (fun e => hji e.symm)] at hm
      exact hrun.snap j m hm
  · have h0 : 0 ≤ a := by
      rcases ha with e | ⟨d, e⟩
      · rw [e]
      · rw [e] at hact
        exact hact.1
    have := hrun.total
    show (initSystem numNodes init).totalAmount ≤ s.totalAmount + a
    linarith

theorem execAll_runInvariant (numNodes : Nat) (init : Nat → Nat → Int) (acts : List Action)
    (s0 s : System) (h0 : Invariant numNodes init s0) (hr0 : RunInvariant numNodes init s0)
    (hacts : ∀ act ∈ acts, act.isRunStep) (h : execAll s0 acts = some s) :
    RunInvariant numNodes init s := by
  induction acts generalizing s0 with
  | nil =>
    simp only [execAll, Option.some.injEq] at h
    rw [← h]; exact hr0
  | cons act rest ih =>
    simp only [execAll] at h
    cases hs : exec s0 act with
    | none => simp [hs] at h
    | some s1 =>
      simp only [hs] at h
      exact ih s1 (invariant_step numNodes init s0 s1 act h0 hs)
        (runInvariant_step numNodes init s0 s1 act h0 hr0 (hacts act (by simp)) hs)
        (fun a ha => hacts a (by simp [ha])) h

theorem initSystem_total (numNodes : Nat) (init : Nat → Nat → Int) :
    (initSystem numNodes init).totalAmount
      = ((List.range numNodes).map (fun i => ((initNode numNodes i init).Accounts).sum)).sum := by
  have hfold : ∀ (l : List Nat) (t : Int),
      l.foldl (fun total i => total + calculateSum (initNode numNodes i init).Accounts) t
        = t + (l.map (fun i => ((initNode numNodes i init).Accounts).sum)).sum := by
    intro l
    induction l with
    | nil => intro t; simp
    | cons x xs ih =>
      intro t
      rw [List.foldl_cons, ih, List.map_cons, List.sum_cons, calculateSum_eq_sum]
      ring
  simp only [initSystem, hfold]
  simp

theorem lt_sum_of_pos (l : List Int) (hpos : ∀ x ∈ l, 0 < x) (i j : Nat) (hij : i ≠ j)
    (hi : i < l.length) (hj : j < l.length) : l[i] < l.sum := by
  have hset := sum_set_int l i l[i] 0 (List.getElem?_eq_getElem hi)
  have hnn : ∀ x ∈ l.set i 0, 0 ≤ x := by
    intro x hx
    rcases List.mem_or_eq_of_mem_set hx with h1 | h1
    · exact le_of_lt (hpos x h1)
    · rw [h1]
  have hjl : j < (l.set i 0).length := by simpa using hj
  have hmem : (l.set i 0)[j] ∈ l.set i 0 := List.getElem_mem hjl
  have hle := List.single_le_sum hnn _ hmem
  have hval : (l.set i 0)[j] = l[j] := by
    rw [List.getElem_set_ne hij]
  have hpj : 0 < l[j] := hpos _ (List.getElem_mem hj)
  rw [hval] at hle
  linarith

theorem sum_pos_of_pos (l : List Int) (hpos : ∀ x ∈ l, 0 < x) (hne : 0 < l.length) :
    0 < l.sum := by
  have hmem : l[0] ∈ l := List.getElem_mem hne
  have hle := List.single_le_sum (fun x hx => le_of_lt (hpos x hx)) _ hmem
  have := hpos _ hmem
  linarith

theorem initNode_sum_pos (numNodes : Nat) (init : Nat → Nat → Int) (i : Nat)
    (hN : 1 ≤ numNodes) (hinit : ∀ j, j < numNodes → 900 ≤ init i j) :
    0 < ((initNode numNodes i init).Accounts).sum := by
  apply sum_pos_of_pos
  · intro x hx
    simp only [initNode, List.mem_map, List.mem_range] at hx
    obtain ⟨j, hj, rfl⟩ := hx
    have := hinit j hj
    linarith
  · simp [initNode]
    omega

/-- C10: for `numNodes ≥ 1`, initial balances in `[900, 1899]`, and any run made of
transfer iterations with amounts in `[0, 99]` (and marker-loop receives), in every state
reached (so also at verification time) and for every node `i`: the snapshot sums to `0` or
to the node's initial balance sum, `totalAmount` is at least its initial value (the sum of
all initial entries), `calculateSum(Snapshot) != totalAmount`, and the verifier's total
comparison is `false`. -/
theorem totals_never_match (numNodes : Nat) (init : Nat → Nat → Int) (acts : List Action)
    (s : System) (hN : 1 ≤ numNodes)
    (hinit : ∀ i j, i < numNodes → j < numNodes → 900 ≤ init i j ∧ init i j ≤ 1899)
    (hacts : ∀ act ∈ acts, act.isRunStep)
    (h : execAll (initSystem numNodes init) acts = some s) :
    (initSystem numNodes init).totalAmount ≤ s.totalAmount ∧
    ∀ i, i < numNodes → ∃ n, s.nodes[i]? = some n ∧
      (calculateSum n.Snapshot = 0 ∨
        calculateSum n.Snapshot = calculateSum (initNode numNodes i init).Accounts) ∧
      calculateSum n.Snapshot ≠ s.totalAmount ∧
      totalMatches n s.totalAmount = false := by
  have hinv := execAll_invariant numNodes init acts _ s (initSystem_invariant numNodes init) h
  have hrun := execAll_runInvariant numNodes init acts _ s (initSystem_invariant numNodes init)
    (runInvariant_init numNodes init) hacts h
  refine ⟨hrun.total, ?_⟩
  intro i hi
  obtain ⟨n, hn, _, _⟩ := sysWF_get s hinv.wf i (by rw [hinv.num]; exact hi)
  have htot := initSystem_total numNodes init
  have hpos : ∀ x ∈ (List.range numNodes).map
      (fun i => ((initNode numNodes i init).Accounts).sum), 0 < x := by
    intro x hx
    simp only [List.mem_map, List.mem_range] at hx
    obtain ⟨k, hk, rfl⟩ := hx
    exact initNode_sum_pos numNodes init k hN (fun j hj => (hinit k j hk hj).1)
  have htotal := hrun.total
  have hne : calculateSum n.Snapshot ≠ s.totalAmount := by
    rw [calculateSum_eq_sum]
    rcases hrun.snap i n hn with h0 | ⟨h2, h1⟩
    · have := sum_pos_of_pos _ hpos (by simpa using hN)
      rw [h0]
      intro e
      rw [← e, htot] at htotal
      linarith
    · have hlen : ((List.range numNodes).map
          (fun i => ((initNode numNodes i init).Accounts).sum)).length = numNodes := by simp
      have hlt := lt_sum_of_pos _ hpos i (if i = 0 then 1 else 0)
        (by split <;> omega) (by rw [hlen]; exact hi) (by rw [hlen]; split <;> omega)
      simp only [List.getElem_map, List.getElem_range] at hlt
      rw [h1]
      intro e
      rw [← e, htot] at htotal
      linarith
  refine ⟨n, hn, ?_, hne, by simp [totalMatches, hne]⟩
  rcases hrun.snap i n hn with h0 | ⟨_, h1⟩
  · exact Or.inl (by rw [calculateSum_eq_sum]; exact h0)
  · exact Or.inr (by rw [calculateSum_eq_sum, calculateSum_eq_sum]; exact h1)

/-- Witness for C10: two nodes with all balances 1000 and two transfers. -/
theorem totals_never_match_witness :
    ∃ s, execAll (initSystem 2 (fun _ _ => 1000)) [Action.iter 0 1 50, Action.iter 1 0 20]
        = some s ∧
      ∀ i, i < 2 → ∃ n, s.nodes[i]? = some n ∧
        (calculateSum n.Snapshot = 0 ∨
          calculateSum n.Snapshot = calculateSum (initNode 2 i (fun _ _ => 1000)).Accounts) ∧
        calculateSum n.Snapshot ≠ s.totalAmount ∧
        totalMatches n s.totalAmount = false := by
  refine ⟨_, rfl, ?_⟩
  exact (totals_never_match 2 (fun _ _ => 1000) [Action.iter 0 1 50, Action.iter 1 0 20] _
    (by decide)
    (fun _ _ _ _ => ⟨(by decide : (900 : Int) ≤ 1000), (by decide : (1000 : Int) ≤ 1899)⟩)
    (by decide) rfl).2

/-! ## The two-node scenario (C2) -/

/-- C2, as amended: with two nodes and any initial balances, after node 0 transfers 50 to
node 1 and then initiates a snapshot, node 0's snapshot entry `Snapshot[0]` equals its
post-transfer own balance (initial own balance minus 50); node 1's local view
`nodes[1].Accounts[0]` still has its initial value, and node 1's marker-loop body, given a
first marker from source 0, records that local view as `State[0]`. -/
theorem two_node_scenario (init : Nat → Nat → Int) :
    ∃ s n0 n1 n2 f2 ev,
      execAll (initSystem 2 init) [Action.iter 0 1 50, Action.snap 0] = some s ∧
      s.nodes[0]? = some n0 ∧ s.nodes[1]? = some n1 ∧
      n0.Accounts[0]? = some (init 0 0 - 50) ∧
      n0.Snapshot[0]? = some (init 0 0 - 50) ∧
      n1.Accounts[0]? = some (init 1 0) ∧
      handleMessage 2 n1 (List.replicate 2 false) (markerOf 0) = some (n2, f2, ev) ∧
      n2.State[0]? = some (init 1 0) ∧ f2[0]? = some true :=
  ⟨_, _, _, _, _, _, rfl, rfl, rfl, rfl, rfl, rfl, rfl, rfl, rfl⟩

/-- C2 as stated fails: with two nodes and all balances 1000, after node 0 transfers 50 to
node 1, initiates a snapshot and every marker loop has run to the end, node 0's own balance
and `Snapshot[0]` are 950 but `nodes[1].State[0]` is 0. -/
theorem two_node_state_not_recorded :
    ∃ s s1 n0 n1,
      execAll (initSystem 2 (fun _ _ => 1000)) [Action.iter 0 1 50, Action.snap 0] = some s ∧
      drainAll [0, 1] s = some s1 ∧
      s1.nodes[0]? = some n0 ∧ s1.nodes[1]? = some n1 ∧
      n0.Accounts[0]? = some 950 ∧ n0.Snapshot[0]? = some 950 ∧
      n1.State[0]? = some 0 ∧ n1.State[0]? ≠ n0.Accounts[0]? :=
  ⟨_, _, _, _, rfl, rfl, rfl, rfl, rfl, rfl, rfl, by decide⟩

/-! ## The single-node run (C3) -/

theorem performLoop_all_self (numNodes : Nat) (gen : Nat → Nat × Int) (is : List Nat)
    (n : Node) (t : Int) (h : ∀ i ∈ is, (gen i).1 = n.ID) :
    performLoop numNodes gen is n t = some (n, t, []) := by
  induction is with
  | nil => rfl
  | cons i rest ih =>
    simp only [performLoop]
    rw [h i (by simp), performIteration_self]
    simp only [ih (fun j hj => h j (by simp [hj]))]
    rfl

/-- C3, as amended: for every run with one node (any initial balance, any generated
workload with in-range destinations) the transfer loop performs no transfer and initiates
no snapshot; at the end `Accounts = [init 0 0]`, `totalAmount = init 0 0`, the snapshot is
still `[0]`, the verifier reports the snapshot consistent (`true`), and it reports the
totals as matching exactly when the initial balance is `0`. -/
theorem single_node_run (init : Nat → Nat → Int) (gens : Nat → Nat → Nat × Int)
    (hgen : ∀ k, k < TransactionsPerSnapshot → (gens 0 k).1 < 1) :
    (initNode 1 0 init).Accounts = [init 0 0] ∧ (initNode 1 0 init).Snapshot = [0] ∧
    performTransaction 1 (initNode 1 0 init) (init 0 0) (gens 0)
      = some (initNode 1 0 init, init 0 0, []) ∧
    mainRun 1 init gens
      = some ({ numNodes := 1, nodes := [initNode 1 0 init], receivedMarkers := [[false]],
                totalAmount := init 0 0 },
              [{ snapshot := [0], consistent := true, snapshotTotal := 0,
                 totalsMatch := decide (0 = init 0 0) }]) := by
  have hself : ∀ t, performTransaction 1 (initNode 1 0 init) t (gens 0)
      = some (initNode 1 0 init, t, []) := by
    intro t
    unfold performTransaction
    apply performLoop_all_self
    intro i hi
    have := hgen i (List.mem_range.mp hi)
    show (gens 0 i).1 = 0
    omega
  refine ⟨rfl, rfl, hself _, ?_⟩
  have hr : List.range 1 = [0] := rfl
  have ht : (initSystem 1 init).totalAmount = init 0 0 := by
    simp [initSystem, hr, calculateSum, initNode]
  have hnodes : (initSystem 1 init).nodes = [initNode 1 0 init] := by
    simp [initSystem, hr]
  have hself1 : ∀ t, performTransaction 1
      { ID := 0, Accounts := [init 0 0], MsgChannels := [[]], Snapshot := [0], State := [0],
        transactionCount := 0 } t (gens 0)
      = some ({ ID := 0, Accounts := [init 0 0], MsgChannels := [[]], Snapshot := [0],
                State := [0], transactionCount := 0 }, t, []) := hself
  simp only [mainRun, hr, runNodes, runNode, hnodes]
  simp [hself1, drainAll, drainNode, initSystem, initNode, handleLoop, verifyAll, verifyNode,
    isConsistent, consistentFrom, makeInts, totalMatches, calculateSum, hr]

/-- Witness for C3 (amended): initial balance 1000, every generated pair is `(0, 50)`. -/
theorem single_node_run_witness :
    mainRun 1 (fun _ _ => 1000) (fun _ _ => (0, 50))
      = some ({ numNodes := 1, nodes := [initNode 1 0 (fun _ _ => 1000)],
                receivedMarkers := [[false]], totalAmount := 1000 },
              [{ snapshot := [0], consistent := true, snapshotTotal := 0,
                 totalsMatch := decide ((0 : Int) = 1000) }]) :=
  (single_node_run (fun _ _ => 1000) (fun _ _ => (0, 50))
    (fun _ _ => (by decide : (0 : Nat) < 1))).2.2.2

/-- C3 as stated fails: with one node of initial balance 1000 the final snapshot is `[0]`,
not the initial `Accounts = [1000]`, and the verifier reports that the totals do not
match. -/
theorem single_node_snapshot_not_initial :
    ∃ s r, mainRun 1 (fun _ _ => 1000) (fun _ _ => (0, 50)) = some (s, [r]) ∧
      (initNode 1 0 (fun _ _ => 1000)).Accounts = [1000] ∧
      r.snapshot = [0] ∧ r.snapshot ≠ (initNode 1 0 (fun _ _ => 1000)).Accounts ∧
      r.consistent = true ∧ r.totalsMatch = false :=
  ⟨_, _, rfl, rfl, rfl, by decide, rfl, rfl⟩

/-! ## The verifier on the states of a run (C5) -/

/-- How a step changes the balance entries that a node keeps for the other nodes. -/
theorem exec_entries (s s1 : System) (act : Action) (hwf : SysWF s)
    (hin : ∀ n ∈ s.nodes, n.MsgChannels[n.ID]? = some []) (h : exec s act = some s1)
    (i : Nat) (n n1 : Node) (hn : s.nodes[i]? = some n) (hn1 : s1.nodes[i]? = some n1)
    (j : Nat) (y : Int) (hj : j ≠ i) (hy : n1.Accounts[j]? = some y) :
    ∃ x, n.Accounts[j]? = some x ∧
      (y = x ∨ ∃ k d a, act = Action.iter k d a ∧ y = x + a) := by
  have hlt : i < s.nodes.length := (List.getElem?_eq_some.mp hn).1
  cases act with
  | iter k d a =>
    simp only [exec] at h
    cases hk : s.nodes[k]? with
    | none => simp [hk] at h
    | some m =>
      obtain ⟨hid, hmwf⟩ := sysWF_of_get s hwf k m hk
      simp only [hk] at h
      by_cases hdi : d = m.ID
      · rw [hdi, performIteration_self] at h
        simp only [Option.some.injEq] at h
        rw [← h] at hn1
        simp only [set_of_getElem? _ _ _ hk, hn, Option.some.injEq] at hn1
        rw [← hn1] at hy
        exact ⟨y, hy, Or.inl rfl⟩
      · by_cases hd : d < s.numNodes
        · obtain ⟨m1, ev, k1, _, k3, _, _, _, _, _⟩ :=
            performIteration_props s.numNodes m s.totalAmount d a hmwf hd hdi
          rw [k1] at h
          simp only [Option.some.injEq] at h
          rw [← h] at hn1
          by_cases hik : i = k
          · subst hik
            simp only [List.getElem?_set_self hlt, Option.some.injEq] at hn1
            rw [hn, Option.some.injEq] at hk
            subst hk
            rw [← hn1, k3] at hy
            have hdl : d < n.Accounts.length := by rw [hmwf.2.1]; exact hd
            by_cases hjd : j = d
            · subst hjd
              have := transferred_get_dest n j a _ hdi (List.getElem?_eq_getElem hdl)
              rw [this, Option.some.injEq] at hy
              exact ⟨n.Accounts[j], List.getElem?_eq_getElem hdl,
                Or.inr ⟨i, j, a, rfl, hy.symm⟩⟩
            · rw [transferred_get_other n d a j hjd (by rw [hid]; exact hj)] at hy
              exact ⟨y, hy, Or.inl rfl⟩
          · simp only [List.getElem?_set_ne (fun e => hik e.symm), hn,
              Option.some.injEq] at hn1
            rw [← hn1] at hy
            exact ⟨y, hy, Or.inl rfl⟩
        · rw [performIteration_oob s.numNodes m s.totalAmount d a hdi
            (by rw [hmwf.2.1]; omega)] at h
          simp at h
  | snap k =>
    simp only [exec] at h
    cases hk : s.nodes[k]? with
    | none => simp [hk] at h
    | some m =>
      obtain ⟨_, hmwf⟩ := sysWF_of_get s hwf k m hk
      simp only [hk] at h
      obtain ⟨chs, k1, _, _⟩ := initiateSnapshot_some s.numNodes m hmwf.2.2.1
      rw [k1] at h
      simp only [Option.some.injEq] at h
      rw [← h] at hn1
      by_cases hik : i = k
      · subst hik
        simp only [List.getElem?_set_self hlt, Option.some.injEq] at hn1
        rw [hn, Option.some.injEq] at hk
        subst hk
        rw [← hn1] at hy
        exact ⟨y, hy, Or.inl rfl⟩
      · simp only [List.getElem?_set_ne (fun e => hik e.symm), hn, Option.some.injEq] at hn1
        rw [← hn1] at hy
        exact ⟨y, hy, Or.inl rfl⟩
  | recv k =>
    obtain ⟨_, _, _, _, _, _, _, _, _, _, _, _, _, _, _, hne⟩ :=
      exec_summary s s1 (Action.recv k) hwf hin h
    exact absurd rfl (hne k)

theorem entryInvariant_init (numNodes : Nat) (init : Nat → Nat → Int)
    (hinit : ∀ i j, i < numNodes → j < numNodes → 900 ≤ init i j ∧ init i j ≤ 1899) :
    EntryInvariant numNodes (initSystem numNodes init) := by
  constructor
  · intro i n hn j x _ hx
    obtain ⟨hi, rfl⟩ := initSystem_get numNodes init i n hn
    simp only [initNode, List.getElem?_map] at hx
    by_cases hjn : j < numNodes
    · rw [List.getElem?_range hjn] at hx
      simp only [Option.map_some', Option.some.injEq] at hx
      rw [← hx]
      exact (hinit i j hi hjn).1
    · rw [List.getElem?_eq_none (by simpa using hjn)] at hx
      simp at hx
  · intro i n hn
    obtain ⟨_, rfl⟩ := initSystem_get numNodes init i n hn
    exact Or.inl rfl

theorem entryInvariant_step (numNodes : Nat) (init : Nat → Nat → Int) (s s1 : System)
    (act : Action) (hinv : Invariant numNodes init s) (hent : EntryInvariant numNodes s)
    (hact : act.isRunStep) (h : exec s act = some s1) :
    EntryInvariant numNodes s1 := by
  have hinv1 := invariant_step numNodes init s s1 act hinv h
  have hacc : ∀ (i : Nat) (n1 : Node), s1.nodes[i]? = some n1 →
      ∀ (j : Nat) (y : Int), j ≠ i → n1.Accounts[j]? = some y → 900 ≤ y := by
    intro i n1 hn1 j y hj hy
    have hi1 : i < s1.nodes.length := (List.getElem?_eq_some.mp hn1).1
    have hi : i < s.numNodes := by
      rw [sysWF_length s1 hinv1.wf, hinv1.num, ← hinv.num] at hi1
      exact hi1
    obtain ⟨n, hn, _, _⟩ := sysWF_get s hinv.wf i hi
    obtain ⟨x, hx, hxy⟩ := exec_entries s s1 act hinv.wf hinv.inbox h i n n1 hn hn1 j y hj hy
    have h900 := hent.acc i n hn j x hj hx
    rcases hxy with e | ⟨k, d, a, e, e1⟩
    · rw [e]; exact h900
    · rw [e] at hact
      have := hact.1
      rw [e1]
      linarith
  refine ⟨hacc, ?_⟩
  obtain ⟨i, n, n1, a, hn, hs1, _, _, _, _, _, _, _, _, hsnap, _⟩ :=
    exec_summary s s1 act hinv.wf hinv.inbox h
  have hlt : i < s.nodes.length := (List.getElem?_eq_some.mp hn).1
  intro j m hm
  by_cases hji : j = i
  · subst hji
    have hm1 : s1.nodes[j]? = some n1 := by
      rw [hs1]
      exact List.getElem?_set_self hlt
    rw [hm1, Option.some.injEq] at hm
    rw [← hm]
    rcases hsnap with e | ⟨e, hcase⟩
    · rw [e]; exact hent.snap j n hn
    · rcases hcase with hc | hc
      · rw [hc] at hact
        exact absurd hact (by simp [Action.isRunStep])
      · right
        refine ⟨by rw [← hinv.num]; exact hc, ?_⟩
        rw [e]
        exact hacc j n1 hm1
  · have hm0 : s.nodes[j]? = some m := by
      rw [hs1] at hm
      simpa only [List.getElem?_set_ne (fun e => hji e.symm)] using hm
    exact hent.snap j m hm0

theorem execAll_entryInvariant (numNodes : Nat) (init : Nat → Nat → Int)
    (acts : List Action) (s0 s : System) (h0 : Invariant numNodes init s0)
    (he0 : EntryInvariant numNodes s0) (hacts : ∀ act ∈ acts, act.isRunStep)
    (h : execAll s0 acts = some s) : EntryInvariant numNodes s := by
  induction acts generalizing s0 with
  | nil =>
    simp only [execAll, Option.some.injEq] at h
    rw [← h]; exact he0
  | cons act rest ih =>
    simp only [execAll] at h
    cases hs : exec s0 act with
    | none => simp [hs] at h
    | some s1 =>
      simp only [hs] at h
      exact ih s1 (invariant_step numNodes init s0 s1 act h0 hs)
        (entryInvariant_step numNodes init s0 s1 act h0 he0 (hacts act (by simp)) hs)
        (fun a ha => hacts a (by simp [ha])) h

/-- C5: in every state that a run of `main` reaches (initial balances in `[900, 1899]`,
transfer iterations with amounts in `[0, 99]`, marker-loop receives; so also at
verification time), every node `i` has `Snapshot` and `State` vectors of length `numNodes`,
the verifier computes a consistency boolean for it, and that boolean is `true` if and only
if `Snapshot[j] == State[j]` for every other node `j ≠ i`. -/
theorem isConsistent_iff_others (numNodes : Nat) (init : Nat → Nat → Int)
    (acts : List Action) (s : System)
    (hinit : ∀ i j, i < numNodes → j < numNodes → 900 ≤ init i j ∧ init i j ≤ 1899)
    (hacts : ∀ act ∈ acts, act.isRunStep)
    (h : execAll (initSystem numNodes init) acts = some s) :
    ∀ i, i < numNodes → ∃ n b, s.nodes[i]? = some n ∧
      n.Snapshot.length = numNodes ∧ n.State.length = numNodes ∧
      isConsistent n = some b ∧
      (b = true ↔ ∀ j, j < numNodes → j ≠ i → n.Snapshot[j]? = n.State[j]?) := by
  have hinv := execAll_invariant numNodes init acts _ s (initSystem_invariant numNodes init) h
  have hent := execAll_entryInvariant numNodes init acts _ s
    (initSystem_invariant numNodes init) (entryInvariant_init numNodes init hinit) hacts h
  intro i hi
  obtain ⟨n, hn, _, hnwf⟩ := sysWF_get s hinv.wf i (by rw [hinv.num]; exact hi)
  rw [hinv.num] at hnwf
  have hstate : n.State = makeInts numNodes := hinv.state n (List.getElem?_mem hn)
  obtain ⟨b, hb1, hb2⟩ := isConsistent_iff_all_entries numNodes n hnwf.2.2.2.1 hnwf.2.2.2.2
  refine ⟨n, b, hn, hnwf.2.2.2.1, hnwf.2.2.2.2, hb1, ?_⟩
  rw [hb2]
  constructor
  · intro hall j hj _
    exact hall j hj
  · intro hoth
    rcases hent.snap i n hn with e | ⟨h2, hge⟩
    · intro j _
      rw [e, hstate]
    · exfalso
      have hj0 : (if i = 0 then 1 else 0) < numNodes := by split <;> omega
      have hne : (if i = 0 then 1 else 0) ≠ i := by split <;> omega
      have hlt : (if i = 0 then 1 else 0) < n.Snapshot.length := by
        rw [hnwf.2.2.2.1]; exact hj0
      have hx := hge _ _ hne (List.getElem?_eq_getElem hlt)
      have heq := hoth _ hj0 hne
      rw [List.getElem?_eq_getElem hlt, hstate] at heq
      simp only [makeInts, List.getElem?_replicate, hj0, if_true, Option.some.injEq] at heq
      rw [heq] at hx
      omega

/-- Witness for C5: two nodes with all balances 1000; node 0 makes its 15 transfers of 50 to
node 1 and so takes its snapshot `[250, 1750]`. -/
theorem isConsistent_iff_others_witness :
    ∃ s, execAll (initSystem 2 (fun _ _ => 1000)) (List.replicate 15 (Action.iter 0 1 50))
        = some s ∧
      ∀ i, i < 2 → ∃ n b, s.nodes[i]? = some n ∧
        n.Snapshot.length = 2 ∧ n.State.length = 2 ∧
        isConsistent n = some b ∧
        (b = true ↔ ∀ j, j < 2 → j ≠ i → n.Snapshot[j]? = n.State[j]?) := by
  refine ⟨_, rfl, ?_⟩
  exact isConsistent_iff_others 2 (fun _ _ => 1000) (List.replicate 15 (Action.iter 0 1 50)) _
    (fun _ _ _ _ => ⟨(by decide : (900 : Int) ≤ 1000), (by decide : (1000 : Int) ≤ 1899)⟩)
    (by decide) rfl

end ChandyLamport
